import Mathlib

/-!
# Verification of the quickSilver content-extraction engine

Shallow embedding of `src/quickSilver/app.py`: the `DataCleaner` field
cleaners, the `IntelligentElementMatcher` intent scoring and regex
extraction, the `WebScraper` per-category extractors together with
`scrape_full`, and the table-normalization part of
`create_clean_csv_data`.  Documents are modelled as an immutable tree of
nodes (tag, attributes, children, text), mirroring the BeautifulSoup view
the code consumes.  Python strings are modelled as `String` (lists of
unicode scalar values); the Unicode-table-driven predicates
(`str.split` whitespace, `unicodedata.category`, NFKD) are implemented
over the code-point ranges documented at each definition, which cover the
full ASCII range exactly.
-/

namespace QuickSilver

/-! ## Python string primitives -/

/-- The code points of the compatibility (NFKD) space family: characters
whose NFKD decomposition is the plain space U+0020.  Covers U+00A0 and the
`Zs` typographic spaces U+2000–U+200A, U+202F, U+205F, U+3000. -/
def spaceDecomp (c : Char) : Bool :=
  c.val == 0xA0 || (0x2000 ≤ c.val && c.val ≤ 0x200A) ||
  c.val == 0x202F || c.val == 0x205F || c.val == 0x3000

/-- Python `str.split()` / `str.strip()` whitespace (the set of characters
with `str.isspace() == True`): ASCII `\t\n\v\f\r`, space, the information
separators U+001C–U+001F, U+0085, and the Unicode space characters. -/
def pyIsSpace (c : Char) : Bool :=
  (9 ≤ c.val && c.val ≤ 13) || c.val == 32 ||
  (0x1C ≤ c.val && c.val ≤ 0x1F) || c.val == 0x85 ||
  c.val == 0x1680 || c.val == 0x2028 || c.val == 0x2029 ||
  spaceDecomp c

/-- `unicodedata.category(c)[0] == 'C'`: the control/format/private-use
classes.  Exact on ASCII (C0 controls and DEL); beyond ASCII it covers the
C1 controls, the standard `Cf` ranges (soft hyphen, Arabic marks, zero
width and directional controls, interlinear annotation, BOM) and the `Co`
private-use areas.  (Surrogates are not representable in `Char`.) -/
def isCatC (c : Char) : Bool :=
  c.val < 32 || (0x7F ≤ c.val && c.val ≤ 0x9F) || c.val == 0xAD ||
  (0x600 ≤ c.val && c.val ≤ 0x605) || c.val == 0x61C || c.val == 0x6DD ||
  c.val == 0x70F || c.val == 0x8E2 || c.val == 0x180E ||
  (0x200B ≤ c.val && c.val ≤ 0x200F) || (0x202A ≤ c.val && c.val ≤ 0x202E) ||
  (0x2060 ≤ c.val && c.val ≤ 0x2064) || (0x2066 ≤ c.val && c.val ≤ 0x206F) ||
  c.val == 0xFEFF || (0xFFF9 ≤ c.val && c.val ≤ 0xFFFB) ||
  (0xE000 ≤ c.val && c.val ≤ 0xF8FF) || (0xF0000 ≤ c.val && c.val ≤ 0xFFFFD) ||
  (0x100000 ≤ c.val && c.val ≤ 0x10FFFD)

/-- One character of `unicodedata.normalize('NFKD', ·)`, restricted to the
space family (every other modelled code point is NFKD-inert; ASCII is
exactly NFKD-invariant). -/
def nfkdChar (c : Char) : List Char :=
  if spaceDecomp c then [' '] else [c]

/-- NFKD normalization of a string (per-character decomposition of the
space family; identity elsewhere). -/
def nfkdL (l : List Char) : List Char := l.flatMap nfkdChar

/-- Helper of `pyWords`: `acc` holds the reversed current word. -/
def pyWordsAux : List Char → List Char → List (List Char)
  | [], acc => if acc.isEmpty then [] else [acc.reverse]
  | c :: cs, acc =>
    if pyIsSpace c then
      if acc.isEmpty then pyWordsAux cs [] else acc.reverse :: pyWordsAux cs []
    else pyWordsAux cs (c :: acc)

/-- Python `text.split()`: maximal runs of non-whitespace characters, in
order, with empty runs dropped. -/
def pyWords (l : List Char) : List (List Char) := pyWordsAux l []

/-- Python `' '.join(ws)`: words joined by single spaces. -/
def pyJoinSp : List (List Char) → List Char
  | [] => []
  | [w] => w
  | w :: w2 :: ws => w ++ ' ' :: pyJoinSp (w2 :: ws)

/-- Python `text.strip()`: drop leading and trailing whitespace. -/
def pyStripL (l : List Char) : List Char :=
  ((l.dropWhile pyIsSpace).reverse.dropWhile pyIsSpace).reverse

/-- The character filter of `DataCleaner.clean_text`:
`unicodedata.category(char)[0] != 'C' or char in '\n\r\t'`. -/
def keepChar (c : Char) : Bool :=
  !(isCatC c) || c == '\n' || c == '\r' || c == '\t'

/-- `''.join(char for char in text if category(char)[0] != 'C' or char in '\n\r\t')`. -/
def removeCtrl (l : List Char) : List Char := l.filter keepChar

/-- Substring test: Python's `needle in hay`. -/
def strContainsSub (hay needle : String) : Bool :=
  hay.data.tails.any (fun t => needle.data.isPrefixOf t)

/-- Python `str.lower()` (ASCII case mapping). -/
def lowerStr (s : String) : String := ⟨s.data.map Char.toLower⟩

/-- Python `str.upper()` (ASCII case mapping). -/
def upperStr (s : String) : String := ⟨s.data.map Char.toUpper⟩

/-- Python slicing `s[:n]`. -/
def strTake (s : String) (n : Nat) : String := ⟨s.data.take n⟩

/-! ## DataCleaner -/

/-- `DataCleaner.clean_text` on the underlying character list: empty input
is returned as is; otherwise NFKD-normalize, collapse whitespace runs to a
single space (`' '.join(text.split())`), drop control-category characters
other than `\n\r\t`, and strip. -/
def clean_textL (l : List Char) : List Char :=
  if l = [] then []
  else pyStripL (removeCtrl (pyJoinSp (pyWords (nfkdL l))))

/-- `DataCleaner.clean_text` (`if not text: return ""` followed by the
normalization pipeline). -/
def clean_text (s : String) : String := ⟨clean_textL s.data⟩

/-- `DataCleaner.standardize_phone`: `re.sub(r'[^\d+]', '', phone)` keeps
every decimal digit and every `+` sign (wherever it occurs); the stripped
string is returned when it has at least 10 characters, otherwise the input
is returned unchanged. -/
def standardize_phone (phone : String) : String :=
  if phone = "" then ""
  else
    let digits : List Char := phone.data.filter (fun c => c.isDigit || c == '+')
    if digits.length ≥ 10 then ⟨digits⟩ else phone

/-- Modelled from the spec: the `standardizePhone` the specification
describes, which strips every character except digits and a single
*leading* `+`.  Used only to exhibit the divergence from the code. -/
def standardize_phone_speced (phone : String) : String :=
  if phone = "" then ""
  else
    let digits : List Char :=
      match phone.data with
      | '+' :: rest => '+' :: rest.filter Char.isDigit
      | l => l.filter Char.isDigit
    if digits.length ≥ 10 then ⟨digits⟩ else phone

/-! ## A small backtracking regex engine

`re.findall` / `re.match` for the patterns the code uses.  The engine
mirrors Python's leftmost, first-alternative, greedy-with-backtracking
semantics: `reEnds` returns every candidate end of a match in the order
Python's backtracking engine would try them (the head is Python's match).
All repetition bodies in the encoded patterns consume at least one
character, and the engine stops a repetition that fails to consume,
as Python does. -/

/-- Regex abstract syntax: character classes, concatenation, alternation,
greedy star, greedy option, word boundary, and the empty pattern. -/
inductive RE where
  | cls (p : Char → Bool)
  | seq (a b : RE)
  | alt (a b : RE)
  | star (a : RE)
  | opt (a : RE)
  | wordB
  | eps

/-- `\w` of the patterns: `[a-zA-Z0-9_]` (the ASCII part of Python's
Unicode word class — exact for ASCII subject text). -/
def isWordChar (c : Char) : Bool := c.isAlphanum || c == '_'

def isWordCharOpt : Option Char → Bool
  | some c => isWordChar c
  | none => false

/-- The syntactic size of a regex, used to bound the engine's fuel. -/
def reSize : RE → Nat
  | RE.cls _ => 1
  | RE.seq a b => reSize a + reSize b + 1
  | RE.alt a b => reSize a + reSize b + 1
  | RE.star a => reSize a + 1
  | RE.opt a => reSize a + 1
  | RE.wordB => 1
  | RE.eps => 1

/-- All candidate match ends, in backtracking preference order.  A state
is the last consumed character (for `\b`) plus the remaining input.
`fuel` bounds the recursion depth; a star iteration must consume input to
recurse (mirroring Python's empty-match rule), so a fuel of
`(reSize re + 1) * (rest.length + 2)` — what every caller passes — is
more than the deepest possible backtracking stack. -/
def reEnds : Nat → RE → Option Char → List Char → List (Option Char × List Char)
  | 0, _, _, _ => []
  | fuel + 1, re, prev, rest =>
    match re with
    | RE.cls p =>
      match rest with
      | [] => []
      | c :: rs => if p c then [(some c, rs)] else []
    | RE.seq a b =>
      (reEnds fuel a prev rest).flatMap (fun s => reEnds fuel b s.1 s.2)
    | RE.alt a b => reEnds fuel a prev rest ++ reEnds fuel b prev rest
    | RE.star a =>
      ((reEnds fuel a prev rest).filter (fun s => s.2.length < rest.length)).flatMap
        (fun s => reEnds fuel (RE.star a) s.1 s.2) ++ [(prev, rest)]
    | RE.opt a => reEnds fuel a prev rest ++ [(prev, rest)]
    | RE.wordB =>
      if isWordCharOpt prev != isWordCharOpt rest.head? then [(prev, rest)] else []
    | RE.eps => [(prev, rest)]

/-- The fuel that saturates `reEnds` for a given pattern and input. -/
def reFuel (re : RE) (len : Nat) : Nat := (reSize re + 1) * (len + 2)

/-- Python's match attempt at one position: the backtracking engine's
first (preferred) result. -/
def reMatchAt (re : RE) (prev : Option Char) (rest : List Char) :
    Option (Option Char × List Char) :=
  (reEnds (reFuel re rest.length) re prev rest).head?

/-- The scan loop of `re.findall`: try a match at every position from
left to right; on a non-empty match continue after it, on an empty match
record it and advance one character.  Each step consumes at least one
character, so a fuel of `rest.length + 1` is exact. -/
def reFindAllAux (re : RE) : Nat → Option Char → List Char → List (List Char)
  | 0, _, _ => []
  | fuel + 1, prev, rest =>
    match reMatchAt re prev rest with
    | some (p2, r2) =>
      if r2.length < rest.length then
        rest.take (rest.length - r2.length) :: reFindAllAux re fuel p2 r2
      else
        match rest with
        | [] => [[]]
        | c :: rs => [] :: reFindAllAux re fuel (some c) rs
    | none =>
      match rest with
      | [] => []
      | c :: rs => reFindAllAux re fuel (some c) rs

/-- `re.findall(pattern, text)` (patterns without capturing groups). -/
def reFindAll (re : RE) (s : String) : List String :=
  (reFindAllAux re (s.data.length + 1) none s.data).map (fun l => ⟨l⟩)

/-- Sequence of regexes. -/
def reSeqAll : List RE → RE
  | [] => RE.eps
  | [r] => r
  | r :: rs => RE.seq r (reSeqAll rs)

/-- `r+` (greedy). -/
def rePlus (r : RE) : RE := RE.seq r (RE.star r)

/-- `r{n}`. -/
def reRepeat (r : RE) : Nat → RE
  | 0 => RE.eps
  | 1 => r
  | n + 1 => RE.seq r (reRepeat r n)

/-- `r{n,}` (greedy). -/
def reAtLeast (r : RE) (n : Nat) : RE := RE.seq (reRepeat r n) (RE.star r)

/-- A case-insensitive literal character (`re.IGNORECASE`). -/
def reCharCI (c : Char) : RE := RE.cls (fun d => d.toLower == c.toLower)

/-- A case-insensitive literal string. -/
def reLitCI (s : String) : RE := reSeqAll (s.data.map reCharCI)

/-- Membership of an ASCII character range. -/
def charBetween (lo hi c : Char) : Bool := lo.val ≤ c.val && c.val ≤ hi.val

/-- `[A-Za-z0-9._%+-]` — the local part of the email pattern. -/
def isEmailLocalChar (c : Char) : Bool :=
  charBetween 'A' 'Z' c || charBetween 'a' 'z' c || charBetween '0' '9' c ||
  c == '.' || c == '_' || c == '%' || c == '+' || c == '-'

/-- `[A-Za-z0-9.-]` — the domain part of the email pattern. -/
def isEmailDomainChar (c : Char) : Bool :=
  charBetween 'A' 'Z' c || charBetween 'a' 'z' c || charBetween '0' '9' c ||
  c == '.' || c == '-'

/-- `[A-Z|a-z]` — the TLD class of the email pattern (the literal `|`
inside the class is part of the source pattern). -/
def isTldChar (c : Char) : Bool :=
  charBetween 'A' 'Z' c || charBetween 'a' 'z' c || c == '|'

/-- `\b[A-Za-z0-9._%+-]+@[A-Za-z0-9.-]+\.[A-Z|a-z]{2,}\b`
(the `email` entry of `IntelligentElementMatcher.patterns`). -/
def emailRE : RE :=
  reSeqAll [RE.wordB, rePlus (RE.cls isEmailLocalChar), RE.cls (· == '@'),
    rePlus (RE.cls isEmailDomainChar), RE.cls (· == '.'),
    reAtLeast (RE.cls isTldChar) 2, RE.wordB]

/-- `[-.\s]` — the separator class of the phone pattern. -/
def isPhoneSep (c : Char) : Bool := c == '-' || c == '.' || pyIsSpace c

/-- `\b(?:\+?1[-.\s]?)?\(?\d{3}\)?[-.\s]?\d{3}[-.\s]?\d{4}\b`
(the `phone` entry of `IntelligentElementMatcher.patterns`). -/
def phoneRE : RE :=
  reSeqAll [RE.wordB,
    RE.opt (reSeqAll [RE.opt (RE.cls (· == '+')), RE.cls (· == '1'),
      RE.opt (RE.cls isPhoneSep)]),
    RE.opt (RE.cls (· == '(')),
    reRepeat (RE.cls Char.isDigit) 3,
    RE.opt (RE.cls (· == ')')),
    RE.opt (RE.cls isPhoneSep),
    reRepeat (RE.cls Char.isDigit) 3,
    RE.opt (RE.cls isPhoneSep),
    reRepeat (RE.cls Char.isDigit) 4,
    RE.wordB]

/-- `\d+(?:,\d{3})*(?:\.\d{2})?` — the numeric core of the price pattern. -/
def priceNumberRE : RE :=
  reSeqAll [rePlus (RE.cls Char.isDigit),
    RE.star (RE.seq (RE.cls (· == ',')) (reRepeat (RE.cls Char.isDigit) 3)),
    RE.opt (RE.seq (RE.cls (· == '.')) (reRepeat (RE.cls Char.isDigit) 2))]

/-- `\$\s*\d+(?:,\d{3})*(?:\.\d{2})?|\b\d+(?:,\d{3})*(?:\.\d{2})?\s*(?:USD|EUR|GBP|dollars?)\b`
(the `price` entry of `IntelligentElementMatcher.patterns`, matched with
`re.IGNORECASE`). -/
def priceRE : RE :=
  RE.alt
    (reSeqAll [RE.cls (· == '$'), RE.star (RE.cls pyIsSpace), priceNumberRE])
    (reSeqAll [RE.wordB, priceNumberRE, RE.star (RE.cls pyIsSpace),
      RE.alt (reLitCI "USD") (RE.alt (reLitCI "EUR")
        (RE.alt (reLitCI "GBP")
          (RE.seq (reLitCI "dollar") (RE.opt (reCharCI 's'))))),
      RE.wordB])

/-- `IntelligentElementMatcher.extract_pattern` for the three pattern
names the extraction pipeline uses (`email`, `phone`, `price`); the
remaining named patterns (`date`, `url`, `social_media`) are never
invoked by the extractors. -/
def extract_pattern (text : String) (pattern_type : String) : List String :=
  if pattern_type = "email" then reFindAll emailRE text
  else if pattern_type = "phone" then reFindAll phoneRE text
  else if pattern_type = "price" then reFindAll priceRE text
  else []

/-- `^[a-zA-Z0-9._%+-]+@[a-zA-Z0-9.-]+\.[a-zA-Z]{2,}$` — the anchored
email pattern of `DataCleaner.validate_email` (no `|` in the TLD class,
case-sensitive classes covering both cases). -/
def validEmailTailRE : RE :=
  reSeqAll [rePlus (RE.cls isEmailLocalChar), RE.cls (· == '@'),
    rePlus (RE.cls isEmailDomainChar), RE.cls (· == '.'),
    reAtLeast (RE.cls (fun c => charBetween 'A' 'Z' c || charBetween 'a' 'z' c)) 2]

/-- `DataCleaner.validate_email`: `bool(re.match(pattern, email))` with the
pattern anchored on both sides; `$` also matches just before a final
newline. -/
def validate_email (email : String) : Bool :=
  if email = "" then false
  else
    (reEnds (reFuel validEmailTailRE email.data.length) validEmailTailRE
        none email.data).any
      (fun s => s.2 = [] || s.2 = ['\n'])

/-! ## The parsed document

A BeautifulSoup document is modelled as an immutable tree: element nodes
carry a (lower-case) tag name, an attribute list and children; text nodes
carry a string.  Multi-valued attributes (`class`, `rel`) are stored as
their raw attribute string and split on whitespace where the code asks
for the list form. -/

inductive Node where
  | elem (tag : String) (attrs : List (String × String)) (kids : List Node)
  | text (s : String)

/-- The children of a node. -/
def Node.children : Node → List Node
  | .elem _ _ kids => kids
  | .text _ => []

/-- Tag test for element nodes. -/
def Node.isTag (n : Node) (t : String) : Bool :=
  match n with
  | .elem tag _ _ => tag == t
  | .text _ => false

/-- Tag-set test for element nodes (BeautifulSoup `find_all([t1, t2, ...])`). -/
def Node.isTagIn (n : Node) (ts : List String) : Bool :=
  match n with
  | .elem tag _ _ => ts.contains tag
  | .text _ => false

/-- `element.get(key, default)` for single-valued attributes. -/
def attrD (n : Node) (key dflt : String) : String :=
  match n with
  | .elem _ attrs _ =>
    match attrs.find? (fun p => p.1 == key) with
    | some p => p.2
    | none => dflt
  | .text _ => dflt

/-- `element.has_attr(key)`. -/
def hasAttr (n : Node) (key : String) : Bool :=
  match n with
  | .elem _ attrs _ => attrs.any (fun p => p.1 == key)
  | .text _ => false

/-- `' '.join(element.get(key, []))` for the multi-valued attributes
(`class`, `rel`): BeautifulSoup splits the raw attribute on whitespace and
the code rejoins with single spaces. -/
def attrJoined (n : Node) (key : String) : String :=
  ⟨pyJoinSp (pyWords (attrD n key "").data)⟩

/-- The whitespace-split value list of a multi-valued attribute. -/
def attrTokens (n : Node) (key : String) : List String :=
  (pyWords (attrD n key "").data).map (fun l => ⟨l⟩)

/-- All data-* attributes (`WebScraper._extract_data_attributes`). -/
def dataAttributes (n : Node) : List (String × String) :=
  match n with
  | .elem _ attrs _ =>
    (attrs.filter (fun p => "data-".data.isPrefixOf p.1.data)).map
      (fun p => (p.1, clean_text p.2))
  | .text _ => []

mutual
/-- `element.get_text()`: the concatenation of every text descendant, in
document order. -/
def getTextN : Node → List Char
  | .elem _ _ kids => getTextL kids
  | .text s => s.data

def getTextL : List Node → List Char
  | [] => []
  | n :: rest => getTextN n ++ getTextL rest
end

/-- `element.get_text()` as a `String`. -/
def getTextS (n : Node) : String := ⟨getTextN n⟩

mutual
/-- A node together with all of its descendants, in document (preorder)
order. -/
def descN : Node → List Node
  | .elem t a kids => .elem t a kids :: descListL kids
  | .text s => [.text s]

/-- All nodes of a list and their descendants, in document order. -/
def descListL : List Node → List Node
  | [] => []
  | n :: rest => descN n ++ descListL rest
end

/-- All proper descendants of a node, in document order (the iteration
domain of BeautifulSoup `find_all`). -/
def descendants (n : Node) : List Node := descListL n.children

/-- `soup.find_all([tags])`: every descendant element whose tag is in the
list, in document order. -/
def findAll (tags : List String) (n : Node) : List Node :=
  (descendants n).filter (fun d => d.isTagIn tags)

/-- `soup.find(tag)`: the first matching descendant, if any. -/
def find1 (tags : List String) (n : Node) : Option Node :=
  (findAll tags n).head?

/-- `soup.find_all(tag, attrs={key: value})` (exact attribute match). -/
def findAllAttr (tag key value : String) (n : Node) : List Node :=
  (findAll [tag] n).filter (fun d => hasAttr d key && attrD d key "" == value)

/-- `soup.find(tag, attrs={key: value})`. -/
def find1Attr (tag key value : String) (n : Node) : Option Node :=
  (findAllAttr tag key value n).head?

/-- A traversal entry: a node together with its ancestor chain
(nearest first) and its preceding siblings (nearest first). -/
structure Ctx where
  node : Node
  ancestors : List Node
  prevSiblings : List Node

mutual
/-- One node with its context, followed by its descendants with theirs. -/
def walkCtxN (anc prevs : List Node) : Node → List Ctx
  | .elem t a kids =>
    ⟨.elem t a kids, anc, prevs⟩ :: walkCtxL (.elem t a kids :: anc) [] kids
  | .text s => [⟨.text s, anc, prevs⟩]

/-- Preorder walk producing each descendant of a sibling list with its
context (ancestors and preceding siblings, nearest first). -/
def walkCtxL (anc : List Node) : List Node → List Node → List Ctx
  | _, [] => []
  | prevs, n :: rest => walkCtxN anc prevs n ++ walkCtxL anc (n :: prevs) rest
end

/-! ## URL resolution (`DataCleaner.clean_url`)

The scraper always passes a base of the form `scheme://host`
(`fetch_page` sets `base_url = f"{scheme}://{netloc}"`), so `urljoin` is
modelled for bases with an empty path: scheme-absolute references are
returned as is, references are resolved against the host with RFC 3986
dot-segment removal. -/

/-- Does the string start with a URI scheme (`alpha (alnum|+|-|.)* :`)? -/
def hasScheme (s : String) : Bool :=
  match s.data with
  | [] => false
  | c :: _ =>
    c.isAlpha &&
      ((s.data.dropWhile
        (fun d => d.isAlphanum || d == '+' || d == '-' || d == '.')).head? == some ':')

/-- Dot-segment removal over a path with its leading `/` stripped;
returns the resolved, `/`-prefixed path. -/
def mergePath (p : String) : String :=
  let parts := p.splitOn "/"
  let kept := parts.foldl (fun acc seg =>
    if seg = "." then acc
    else if seg = ".." then acc.dropLast
    else acc ++ [seg]) []
  let kept := if parts.getLast? == some "." || parts.getLast? == some ".." then
    kept ++ [""] else kept
  "/" ++ String.intercalate "/" kept

/-- `urllib.parse.urljoin(base, rel)` for a base of the form
`scheme://host`. -/
def pyUrljoin (base rel : String) : String :=
  if rel = "" then base
  else if hasScheme rel then rel
  else
    let pathChars := rel.data.takeWhile (fun c => !(c == '?' || c == '#'))
    let path : String := ⟨pathChars⟩
    let rest : String := ⟨rel.data.drop pathChars.length⟩
    if path = "" then base ++ rest
    else if "/".isPrefixOf path then base ++ mergePath (path.drop 1) ++ rest
    else base ++ mergePath path ++ rest

/-- `DataCleaner.clean_url`: empty input yields `""`; otherwise strip,
resolve against the base unless already `http://`/`https://`/`//`, and
give scheme-relative URLs the `https:` prefix. -/
def clean_url (url base_url : String) : String :=
  if url = "" then ""
  else
    let u : String := ⟨pyStripL url.data⟩
    let u2 :=
      if "http://".isPrefixOf u || "https://".isPrefixOf u || "//".isPrefixOf u
      then u else pyUrljoin base_url u
    if "//".isPrefixOf u2 then "https:" ++ u2 else u2

/-! ## Category extractors (`WebScraper._extract_all_*`)

Each extractor consumes the parsed document (and the base URL where URLs
are cleaned) and returns the ordered record list the Python code builds.
Python dictionaries with per-kind key sets are modelled as flat
structures; a key a given kind never sets carries the corresponding
`dict.get` default (`""`, `false`, `[]`, `0`). -/

/-- The heading tags, in the order the titles extractor iterates them. -/
def hLevels : List String := ["h1", "h2", "h3", "h4", "h5", "h6"]

structure TitleRec where
  level : String
  text : String
  position : Nat
  id : String
  classAttr : String
  deriving DecidableEq, Repr

/-- The inner loop of `_extract_all_titles` for one heading tag:
enumerate that tag's elements in document order and emit a record for
each one with non-empty cleaned text; `position` is the element's
enumeration index + 1 *within this tag*. -/
def titlesOfLevel (soup : Node) (tag : String) : List TitleRec :=
  (findAll [tag] soup).enum.filterMap (fun p =>
    let txt := clean_text (getTextS p.2)
    if txt ≠ "" then
      some ⟨upperStr tag, txt, p.1 + 1, attrD p.2 "id" "", attrJoined p.2 "class"⟩
    else none)

/-- `WebScraper._extract_all_titles`: the per-tag loops for h1..h6 in
turn, appending into one list. -/
def extract_all_titles (soup : Node) : List TitleRec :=
  hLevels.flatMap (titlesOfLevel soup)

structure DescRec where
  descType : String
  text : String
  length : Nat
  position : Nat
  deriving DecidableEq, Repr

/-- The first `<meta name="description">` of the document. -/
def metaDescription (soup : Node) : Option Node :=
  find1Attr "meta" "name" "description" soup

/-- `WebScraper._extract_all_descriptions`: the meta description (if it
has non-empty content) at position 0, then every `<p>` with non-empty
cleaned text at its enumeration index + 1.  The meta record's `length` is
the length of the *raw* content. -/
def extract_all_descriptions (soup : Node) : List DescRec :=
  (match metaDescription soup with
   | some m =>
     let c := attrD m "content" ""
     if c ≠ "" then [⟨"Meta Description", clean_text c, c.length, 0⟩] else []
   | none => []) ++
  (findAll ["p"] soup).enum.filterMap (fun p =>
    let txt := clean_text (getTextS p.2)
    if txt ≠ "" then some ⟨"Paragraph", txt, txt.length, p.1 + 1⟩ else none)

structure ImageRec where
  position : Nat
  url : String
  alt : String
  title : String
  width : String
  height : String
  loading : String
  deriving DecidableEq, Repr

/-- `src = img.get('src','') or img.get('data-src','') or img.get('data-lazy-src','')`. -/
def imgEffSrc (img : Node) : String :=
  let s1 := attrD img "src" ""
  if s1 ≠ "" then s1
  else
    let s2 := attrD img "data-src" ""
    if s2 ≠ "" then s2 else attrD img "data-lazy-src" ""

/-- The per-element step of the images loop: a record when the effective
src is non-empty, nothing otherwise. -/
def imgStep (base_url : String) (p : Nat × Node) : Option ImageRec :=
  let img := p.2
  let src := imgEffSrc img
  if src ≠ "" then
    some ⟨p.1 + 1, clean_url src base_url, clean_text (attrD img "alt" ""),
      clean_text (attrD img "title" ""), attrD img "width" "",
      attrD img "height" "", attrD img "loading" ""⟩
  else none

/-- `WebScraper._extract_all_images`: enumerate every `<img>` in document
order; elements whose effective src is empty are skipped (their
enumeration index is still consumed). -/
def extract_all_images (soup : Node) (base_url : String) : List ImageRec :=
  (findAll ["img"] soup).enum.filterMap (imgStep base_url)

structure LinkRec where
  position : Nat
  url : String
  text : String
  title : String
  is_external : Bool
  rel : String
  target : String
  deriving DecidableEq, Repr

/-- `soup.find_all('a', href=True)`. -/
def anchorsWithHref (soup : Node) : List Node :=
  (findAll ["a"] soup).filter (fun a => hasAttr a "href")

/-- `WebScraper._extract_all_links`: one record per `<a href=...>`;
`is_external` is `base_url not in full_url`. -/
def extract_all_links (soup : Node) (base_url : String) : List LinkRec :=
  (anchorsWithHref soup).enum.map (fun p =>
    let a := p.2
    let full := clean_url (attrD a "href" "") base_url
    ⟨p.1 + 1, full, clean_text (getTextS a), clean_text (attrD a "title" ""),
      !(strContainsSub full base_url), attrJoined a "rel", attrD a "target" ""⟩)

structure TableRec where
  table_number : Nat
  headers : List String
  rows : List (List String)
  row_count : Nat
  column_count : Nat
  deriving DecidableEq, Repr

/-- The cleaned cell texts of a row-like element
(`[clean_text(td.get_text()) for td in x.find_all(['th','td'])]`). -/
def cleanedCells (n : Node) : List String :=
  (findAll ["th", "td"] n).map (fun c => clean_text (getTextS c))

/-- The header extraction of `_extract_all_tables` before the
`Column_N` synthesis: cells of the `<thead>` if present, else cells of
the first `<tr>`, else `[]`. -/
def tableHeadersPre (tbl : Node) : List String :=
  match find1 ["thead"] tbl with
  | some th => cleanedCells th
  | none =>
    match find1 ["tr"] tbl with
    | some fr => cleanedCells fr
    | none => []

/-- The final header list: when no header cell was found at all,
synthesize `Column_1 .. Column_N` sized to the first row's `td`/`th`
count. -/
def tableHeaders (tbl : Node) : List String :=
  let hs := tableHeadersPre tbl
  if hs = [] then
    match find1 ["tr"] tbl with
    | some fr =>
      (List.range (findAll ["td", "th"] fr).length).map
        (fun i => "Column_" ++ toString (i + 1))
    | none => []
  else hs

/-- `tbody.find_all('tr') if tbody else table.find_all('tr')`. -/
def tableRowsToProcess (tbl : Node) : List Node :=
  match find1 ["tbody"] tbl with
  | some tb => findAll ["tr"] tb
  | none => findAll ["tr"] tbl

/-- `start_idx = 1 if not table.find('thead') and headers else 0`. -/
def tableStartIdx (tbl : Node) : Nat :=
  if (find1 ["thead"] tbl).isNone && !(tableHeaders tbl).isEmpty then 1 else 0

/-- The data-row filter: keep a row when its cleaned cell list is
non-empty and some cell is non-empty (`if cells and any(cells)`). -/
def keptRows (rows : List Node) : List (List String) :=
  rows.filterMap (fun r =>
    let cells := cleanedCells r
    if cells ≠ [] ∧ cells.any (· ≠ "") then some cells else none)

/-- The record built for the table at (0-based) document index `idx`, if
both a header and at least one kept data row exist. -/
def perTable (idx : Nat) (tbl : Node) : Option TableRec :=
  let headers := tableHeaders tbl
  let rows_data := keptRows ((tableRowsToProcess tbl).drop (tableStartIdx tbl))
  if rows_data ≠ [] ∧ headers ≠ [] then
    some ⟨idx + 1, headers, rows_data, rows_data.length, headers.length⟩
  else none

/-- `WebScraper._extract_all_tables`. -/
def extract_all_tables (soup : Node) : List TableRec :=
  (findAll ["table"] soup).enum.filterMap (fun p => perTable p.1 p.2)

structure ContactInfo where
  emails : List String
  phones : List String
  total_contacts : Nat
  deriving DecidableEq, Repr

/-- Helper of `pySetList`: drop values seen before. -/
def pySetListAux (seen : List String) : List String → List String
  | [] => []
  | x :: xs =>
    if seen.contains x then pySetListAux seen xs
    else x :: pySetListAux (x :: seen) xs

/-- `list(set(xs))`: deduplication.  A Python set iterates in hash-table
order, an implementation artifact that is fixed within a process; it is
modelled as first-occurrence order. -/
def pySetList (xs : List String) : List String := pySetListAux [] xs

/-- `WebScraper._extract_all_contact_info`: pattern-extract emails and
phones from the whole page text, deduplicate, keep emails passing
`validate_email`, pass phones through `standardize_phone`. -/
def extract_all_contact_info (soup : Node) : ContactInfo :=
  let page_text := getTextS soup
  let emails0 := pySetList (extract_pattern page_text "email")
  let phones0 := pySetList (extract_pattern page_text "phone")
  let emails := emails0.filter validate_email
  let phones := phones0.map standardize_phone
  ⟨emails, phones, emails.length + phones.length⟩

structure PriceRec where
  price : String
  context : String
  deriving DecidableEq, Repr

/-- The `class_=re.compile(r'price|cost|amount', re.I)` filter: some
class token contains one of the three words, case-insensitively. -/
def priceClassMatch (n : Node) : Bool :=
  (attrTokens n "class").any (fun t =>
    let lt := lowerStr t
    strContainsSub lt "price" || strContainsSub lt "cost" ||
      strContainsSub lt "amount")

/-- `WebScraper._extract_all_prices`: price matches inside
price-classed `span/div/p/strong/b` elements with 150 characters of
cleaned context, then whole-page matches not already captured (compared
by literal price string), tagged `"General page content"`. -/
def extract_all_prices (soup : Node) : List PriceRec :=
  let price_elements := (descendants soup).filter (fun e =>
    e.isTagIn ["span", "div", "p", "strong", "b"] && priceClassMatch e)
  let fromElems := price_elements.flatMap (fun e =>
    let txt := clean_text (getTextS e)
    (extract_pattern txt "price").map (fun pr => (⟨pr, strTake txt 150⟩ : PriceRec)))
  let general := extract_pattern (getTextS soup) "price"
  general.foldl (fun acc pr =>
    if acc.any (fun p => p.price == pr) then acc
    else acc ++ [⟨pr, "General page content"⟩]) fromElems

structure VideoRec where
  position : Nat
  vtype : String
  src : String
  poster : String
  title : String
  width : String
  height : String
  deriving DecidableEq, Repr

/-- The known platform substrings tested against `iframe.src.lower()`. -/
def videoPlatforms : List String := ["youtube", "vimeo", "dailymotion", "video"]

/-- `WebScraper._extract_all_videos`: every `<video>` (positions 1..n),
then every `<iframe>` whose src contains a platform substring, its
position continuing the count (`len(videos) + 1`). -/
def extract_all_videos (soup : Node) (base_url : String) : List VideoRec :=
  let vids := (findAll ["video"] soup).enum.map (fun p =>
    (⟨p.1 + 1, "video", clean_url (attrD p.2 "src" "") base_url,
      clean_url (attrD p.2 "poster" "") base_url, "",
      attrD p.2 "width" "", attrD p.2 "height" ""⟩ : VideoRec))
  (findAll ["iframe"] soup).foldl (fun acc ifr =>
    let src := attrD ifr "src" ""
    if videoPlatforms.any (fun pl => strContainsSub (lowerStr src) pl) then
      acc ++ [⟨acc.length + 1, "iframe", clean_url src base_url, "",
        clean_text (attrD ifr "title" ""), attrD ifr "width" "",
        attrD ifr "height" ""⟩]
    else acc) vids

structure MetaRec where
  position : Nat
  name : String
  property : String
  content : String
  http_equiv : String
  deriving DecidableEq, Repr

/-- `WebScraper._extract_all_meta`: one record per `<meta>`. -/
def extract_all_meta (soup : Node) : List MetaRec :=
  (findAll ["meta"] soup).enum.map (fun p =>
    ⟨p.1 + 1, attrD p.2 "name" "", attrD p.2 "property" "",
      clean_text (attrD p.2 "content" ""), attrD p.2 "http-equiv" ""⟩)

/-! ### Forms (`WebScraper._extract_all_forms`) -/

/-- Helper of Python `str.title()`: the flag records whether the previous
character was alphabetic (ASCII case mapping). -/
def pyTitleAux : Bool → List Char → List Char
  | _, [] => []
  | prevAlpha, c :: rest =>
    if c.isAlpha then
      (if prevAlpha then c.toLower else c.toUpper) :: pyTitleAux true rest
    else c :: pyTitleAux false rest

/-- Python `str.title()`. -/
def pyTitleCase (s : String) : String := ⟨pyTitleAux false s.data⟩

/-- `WebScraper._find_label_for_element`: label by `for=id` inside the
form, else nearest ancestor `<label>`, else nearest preceding sibling
`<label>`, else `aria-label`, else `placeholder`, else the title-cased
`name` attribute, else `""`. -/
def find_label_for_element (form el : Node) (anc prevs : List Node) : String :=
  let element_id := attrD el "id" ""
  let element_name := attrD el "name" ""
  let byFor : Option Node :=
    if element_id ≠ "" then find1Attr "label" "for" element_id form else none
  match byFor with
  | some lab => clean_text (getTextS lab)
  | none =>
    match anc.find? (fun a => a.isTag "label") with
    | some plab => clean_text (getTextS plab)
    | none =>
      match prevs.find? (fun a => a.isTag "label") with
      | some slab => clean_text (getTextS slab)
      | none =>
        let aria := attrD el "aria-label" ""
        if aria ≠ "" then clean_text aria
        else
          let ph := attrD el "placeholder" ""
          if ph ≠ "" then clean_text ph
          else if element_name ≠ "" then
            pyTitleCase
              ⟨element_name.data.map (fun c => if c == '_' || c == '-' then ' ' else c)⟩
          else ""

structure OptionRec where
  value : String
  text : String
  selected : Bool
  disabled : Bool
  deriving DecidableEq, Repr

/-- One `<option>` of a `<select>`. -/
def mkOptionRec (o : Node) : OptionRec :=
  ⟨attrD o "value" "", clean_text (getTextS o), hasAttr o "selected",
    hasAttr o "disabled"⟩

/-- One form control.  The Python code builds a per-kind dictionary; keys
a kind never sets carry the `dict.get` defaults the downstream code uses
(`""`, `false`, `[]`, `0`). -/
structure FormField where
  position : Nat
  element_type : String
  input_type : String
  name : String
  id : String
  value : String
  placeholder : String
  label : String
  required : Bool
  disabled : Bool
  readonly : Bool
  hidden : Bool
  checked : Bool
  multiple : Bool
  minA : String
  maxA : String
  maxlength : String
  pattern : String
  rowsA : String
  colsA : String
  sizeA : String
  options : List OptionRec
  options_count : Nat
  classAttr : String
  aria_label : String
  textVal : String
  data_attributes : List (String × String)
  deriving DecidableEq, Repr

/-- The record of one `<input>` control. -/
def mkInputField (form : Node) (pos : Nat) (c : Ctx) : FormField :=
  let el := c.node
  let input_type := lowerStr (attrD el "type" "text")
  { position := pos, element_type := "input", input_type := input_type,
    name := attrD el "name" "", id := attrD el "id" "",
    value := clean_text (attrD el "value" ""),
    placeholder := clean_text (attrD el "placeholder" ""),
    label := find_label_for_element form el c.ancestors c.prevSiblings,
    required := hasAttr el "required", disabled := hasAttr el "disabled",
    readonly := hasAttr el "readonly",
    hidden := input_type == "hidden" || hasAttr el "hidden",
    checked := hasAttr el "checked", multiple := false,
    minA := attrD el "min" "", maxA := attrD el "max" "",
    maxlength := attrD el "maxlength" "", pattern := attrD el "pattern" "",
    rowsA := "", colsA := "", sizeA := "", options := [], options_count := 0,
    classAttr := attrJoined el "class", aria_label := attrD el "aria-label" "",
    textVal := "", data_attributes := dataAttributes el }

/-- The record of one `<textarea>` control. -/
def mkTextareaField (form : Node) (pos : Nat) (c : Ctx) : FormField :=
  let el := c.node
  { position := pos, element_type := "textarea", input_type := "textarea",
    name := attrD el "name" "", id := attrD el "id" "",
    value := clean_text (getTextS el),
    placeholder := clean_text (attrD el "placeholder" ""),
    label := find_label_for_element form el c.ancestors c.prevSiblings,
    required := hasAttr el "required", disabled := hasAttr el "disabled",
    readonly := hasAttr el "readonly", hidden := hasAttr el "hidden",
    checked := false, multiple := false, minA := "", maxA := "",
    maxlength := attrD el "maxlength" "", pattern := "",
    rowsA := attrD el "rows" "", colsA := attrD el "cols" "", sizeA := "",
    options := [], options_count := 0, classAttr := attrJoined el "class",
    aria_label := attrD el "aria-label" "", textVal := "",
    data_attributes := dataAttributes el }

/-- The record of one `<select>` control. -/
def mkSelectField (form : Node) (pos : Nat) (c : Ctx) : FormField :=
  let el := c.node
  let options := (findAll ["option"] el).map mkOptionRec
  { position := pos, element_type := "select", input_type := "select",
    name := attrD el "name" "", id := attrD el "id" "", value := "",
    placeholder := "",
    label := find_label_for_element form el c.ancestors c.prevSiblings,
    required := hasAttr el "required", disabled := hasAttr el "disabled",
    readonly := false, hidden := hasAttr el "hidden", checked := false,
    multiple := hasAttr el "multiple", minA := "", maxA := "", maxlength := "",
    pattern := "", rowsA := "", colsA := "", sizeA := attrD el "size" "",
    options := options, options_count := options.length,
    classAttr := attrJoined el "class", aria_label := attrD el "aria-label" "",
    textVal := "", data_attributes := dataAttributes el }

/-- The record of one `<button>` control. -/
def mkButtonField (pos : Nat) (c : Ctx) : FormField :=
  let el := c.node
  { position := pos, element_type := "button",
    input_type := attrD el "type" "button", name := attrD el "name" "",
    id := attrD el "id" "", value := clean_text (attrD el "value" ""),
    placeholder := "", label := "", required := false,
    disabled := hasAttr el "disabled", readonly := false, hidden := false,
    checked := false, multiple := false, minA := "", maxA := "",
    maxlength := "", pattern := "", rowsA := "", colsA := "", sizeA := "",
    options := [], options_count := 0, classAttr := attrJoined el "class",
    aria_label := attrD el "aria-label" "",
    textVal := clean_text (getTextS el), data_attributes := dataAttributes el }

/-- The record added for an `<input type="submit">` that was not already
captured (the Python dict sets only these keys; `value` defaults to
`'Submit'`). -/
def mkSubmitField (pos : Nat) (c : Ctx) : FormField :=
  let el := c.node
  { position := pos, element_type := "input", input_type := "submit",
    name := attrD el "name" "", id := attrD el "id" "",
    value := clean_text (attrD el "value" "Submit"), placeholder := "",
    label := "", required := false, disabled := hasAttr el "disabled",
    readonly := false, hidden := false, checked := false, multiple := false,
    minA := "", maxA := "", maxlength := "", pattern := "", rowsA := "",
    colsA := "", sizeA := "", options := [], options_count := 0,
    classAttr := attrJoined el "class", aria_label := "", textVal := "",
    data_attributes := [] }

/-- One iteration of the `input type="submit"` loop: skip the control
when a field with the same id and name was already collected, otherwise
append its record under the next position. -/
def submitFoldStep (st : List FormField × Nat) (c : Ctx) : List FormField × Nat :=
  if st.1.any (fun f =>
      f.id == attrD c.node "id" "" && f.name == attrD c.node "name" "") then st
  else (st.1 ++ [mkSubmitField (st.2 + 1) c], st.2 + 1)

/-- The field list of one form: the Python code walks `find_all('input')`,
then `find_all('textarea')`, then `find_all('select')`, then
`find_all('button')`, then `find_all('input', type='submit')` (the last
deduplicated against the fields collected so far by id+name), a single
position counter running across the groups. -/
def extract_form_fields (form : Node) (ancForm : List Node) : List FormField :=
  let entries := walkCtxL (form :: ancForm) [] form.children
  let inputs := entries.filter (fun c => c.node.isTag "input")
  let textareas := entries.filter (fun c => c.node.isTag "textarea")
  let selects := entries.filter (fun c => c.node.isTag "select")
  let buttons := entries.filter (fun c => c.node.isTag "button")
  let g1 := inputs.enum.map (fun p => mkInputField form (p.1 + 1) p.2)
  let g2 := textareas.enum.map (fun p =>
    mkTextareaField form (inputs.length + p.1 + 1) p.2)
  let g3 := selects.enum.map (fun p =>
    mkSelectField form (inputs.length + textareas.length + p.1 + 1) p.2)
  let g4 := buttons.enum.map (fun p =>
    mkButtonField (inputs.length + textareas.length + selects.length + p.1 + 1) p.2)
  let base := g1 ++ g2 ++ g3 ++ g4
  let submits := entries.filter (fun c =>
    c.node.isTag "input" && attrD c.node "type" "" == "submit")
  (submits.foldl submitFoldStep (base, base.length)).1

structure FormRec where
  form_number : Nat
  form_id : String
  form_name : String
  form_class : String
  action : String
  method : String
  enctype : String
  autocomplete : String
  target : String
  fields : List FormField
  total_fields : Nat
  hidden_fields : Nat
  required_fields : Nat
  disabled_fields : Nat
  deriving DecidableEq, Repr

/-- `WebScraper._extract_all_forms`. -/
def extract_all_forms (soup : Node) (base_url : String) : List FormRec :=
  let entries := walkCtxL [soup] [] soup.children
  let formEntries := entries.filter (fun c => c.node.isTag "form")
  formEntries.enum.map (fun p =>
    let form := p.2.node
    let fields := extract_form_fields form p.2.ancestors
    { form_number := p.1 + 1, form_id := attrD form "id" "",
      form_name := attrD form "name" "", form_class := attrJoined form "class",
      action := clean_url (attrD form "action" "") base_url,
      method := upperStr (attrD form "method" "GET"),
      enctype := attrD form "enctype" "",
      autocomplete := attrD form "autocomplete" "",
      target := attrD form "target" "", fields := fields,
      total_fields := fields.length,
      hidden_fields := (fields.filter (·.hidden)).length,
      required_fields := (fields.filter (·.required)).length,
      disabled_fields := (fields.filter (·.disabled)).length })

/-! ### `WebScraper.scrape_full` -/

mutual
/-- BeautifulSoup `tag.string`: the single text child, recursing through a
single element child; `None` otherwise. -/
def nodeString : Node → Option String
  | .elem _ _ kids => nodeStringKids kids
  | .text _ => none

/-- `tag.string` on a child list: defined only for a single text or a
single element child. -/
def nodeStringKids : List Node → Option String
  | [.text s] => some s
  | [.elem t a k] => nodeString (.elem t a k)
  | _ => none
end

structure ScrapeMetadata where
  url : String
  timestamp : String
  title : String
  description : String
  deriving DecidableEq, Repr

/-- `results['data']`: one optional entry per category (`none` when the
category was not selected), in the insertion order of the Python dict. -/
structure ScrapeData where
  titles : Option (List TitleRec)
  descriptions : Option (List DescRec)
  images : Option (List ImageRec)
  links : Option (List LinkRec)
  tables : Option (List TableRec)
  contact_info : Option ContactInfo
  prices : Option (List PriceRec)
  videos : Option (List VideoRec)
  forms : Option (List FormRec)
  meta : Option (List MetaRec)
  deriving DecidableEq, Repr

structure ScrapeResults where
  metadata : ScrapeMetadata
  data : ScrapeData
  deriving DecidableEq, Repr

/-- `WebScraper.scrape_full`: page metadata (`now` is the
`datetime.now()` timestamp string the code stores) plus the selected
category extractions.  An empty feature list defaults to `['all']`; a
category runs when `'all'` or its own name is selected. -/
def scrape_full (url base_url now : String) (soup : Node)
    (selected_features : List String) : ScrapeResults :=
  let title :=
    match find1 ["title"] soup with
    | some t => clean_text ((nodeString t).getD "")
    | none => "No title"
  let description :=
    match metaDescription soup with
    | some m =>
      let c := attrD m "content" ""
      if c ≠ "" then clean_text c else ""
    | none => ""
  let sf := if selected_features = [] then ["all"] else selected_features
  let sel := fun (c : String) => sf.contains "all" || sf.contains c
  { metadata := ⟨url, now, title, description⟩
    data := {
      titles := if sel "titles" then some (extract_all_titles soup) else none
      descriptions :=
        if sel "descriptions" then some (extract_all_descriptions soup) else none
      images := if sel "images" then some (extract_all_images soup base_url) else none
      links := if sel "links" then some (extract_all_links soup base_url) else none
      tables := if sel "tables" then some (extract_all_tables soup) else none
      contact_info :=
        if sel "contact" then some (extract_all_contact_info soup) else none
      prices := if sel "prices" then some (extract_all_prices soup) else none
      videos := if sel "videos" then some (extract_all_videos soup base_url) else none
      forms := if sel "forms" then some (extract_all_forms soup base_url) else none
      meta := if sel "meta" then some (extract_all_meta soup) else none } }

/-! ## Table normalization (`create_clean_csv_data`, tables branch) -/

/-- The per-row normalization: pad a short row with empty strings to the
header length, truncate a long row to it. -/
def normalize_row (max_cols : Nat) (row : List String) : List String :=
  if row.length < max_cols then row ++ List.replicate (max_cols - row.length) ""
  else if row.length > max_cols then row.take max_cols
  else row

/-- `normalized_rows` of the tables branch. -/
def normalized_rows (headers : List String) (rows : List (List String)) :
    List (List String) :=
  rows.map (normalize_row headers.length)

/-- The `6_Table_{n}` sheets built from the extracted table records
(`if rows and headers` guard, then normalization). -/
def csvTables (items : List TableRec) :
    List (String × List String × List (List String)) :=
  items.filterMap (fun t =>
    if t.rows ≠ [] ∧ t.headers ≠ [] then
      some ("6_Table_" ++ toString t.table_number, t.headers,
        normalized_rows t.headers t.rows)
    else none)

/-! ## Intent matching (`IntelligentElementMatcher.match_intent`) -/

/-- The keyword taxonomy `IntelligentElementMatcher.element_keywords`, in
source order. -/
def element_keywords : List (String × List String) :=
  [("title", ["title", "heading", "header", "h1", "h2", "h3", "headline", "caption", "name"]),
   ("description", ["description", "desc", "summary", "content", "text", "paragraph", "detail", "about", "info"]),
   ("image", ["image", "img", "picture", "photo", "thumbnail", "graphic", "visual", "media"]),
   ("link", ["link", "url", "href", "anchor", "hyperlink", "reference"]),
   ("table", ["table", "grid", "data", "list", "spreadsheet", "chart"]),
   ("contact", ["email", "phone", "contact", "address", "tel", "telephone", "mail"]),
   ("price", ["price", "cost", "amount", "value", "$", "fee", "rate", "charge", "payment"]),
   ("date", ["date", "time", "published", "updated", "timestamp", "when", "schedule"]),
   ("product", ["product", "item", "goods", "merchandise", "article"]),
   ("author", ["author", "writer", "by", "creator", "publisher"]),
   ("category", ["category", "tag", "topic", "section", "type", "class"]),
   ("social", ["social", "twitter", "facebook", "instagram", "linkedin", "share"]),
   ("video", ["video", "youtube", "vimeo", "media", "embed"]),
   ("form", ["form", "input", "search", "subscribe", "newsletter"]),
   ("meta", ["meta", "metadata", "seo", "keywords", "tags"])]

/-- `token in keyword or keyword in token`. -/
def tokenKeywordHit (token keyword : String) : Bool :=
  strContainsSub keyword token || strContainsSub token keyword

/-- The score of one category: 1 per (token, keyword) pair that hits. -/
def keywordScore (tokens keywords : List String) : Nat :=
  (tokens.map (fun t => (keywords.filter (tokenKeywordHit t)).length)).sum

/-- The `scores` dict: categories with positive score, in source order. -/
def scoresOf (tokens : List String) : List (String × Nat) :=
  element_keywords.filterMap (fun p =>
    let s := keywordScore tokens p.2
    if s > 0 then some (p.1, s) else none)

/-- The maximum category score (0 when every category scores 0). -/
def maxScoreAll (tokens : List String) : Nat :=
  (element_keywords.map (fun p => keywordScore tokens p.2)).foldr Nat.max 0

/-- The selection of `match_intent` over an already-tokenized query.
Tokenization (`preprocess_query`) is an external collaborator; the
floating-point threshold `v >= max_score * 0.7` agrees with the exact
comparison `10 * v ≥ 7 * max_score` on this integer range. -/
def match_intent_tokens (tokens : List String) : List String :=
  let scores := scoresOf tokens
  if scores = [] then ["all"]
  else
    let max_score := (scores.map (·.2)).foldr Nat.max 0
    let matched := (scores.filter (fun p => 10 * p.2 ≥ 7 * max_score)).map (·.1)
    if matched = [] then ["all"] else matched

/-! ## Exception semantics

The extractors contain no per-element `try/except`; the only handler is
the one `try` of `scrape_full`.  Python control flow with exceptions is
embedded in `Except`: a loop body that raises aborts the whole loop, and
the first category extractor that raises aborts the `try`, whose handler
appends to `self.errors` and returns the results accumulated so far. -/

/-- A category-extractor `for` loop (e.g. the `<img>` loop of
`_extract_all_images`) whose per-element body may raise: `ok none` means
the element was skipped by a guard, `ok (some b)` appends a record, and
`error e` propagates out of the loop, Python-style. -/
def pyLoopCollect {α β ε : Type} (body : α → Except ε (Option β)) :
    List α → Except ε (List β)
  | [] => .ok []
  | a :: rest =>
    match body a with
    | .error e => .error e
    | .ok none => pyLoopCollect body rest
    | .ok (some b) =>
      match pyLoopCollect body rest with
      | .error e => .error e
      | .ok bs => .ok (b :: bs)

/-- The `try` of `scrape_full` over its sequence of category extractors:
each completed category is stored in `results['data']`; the first raising
category aborts the sequence, the handler records
`f"Scraping error: {e}"` and the partial results are returned. -/
def scrapeFullSeq {ρ : Type} :
    List (String × Except String ρ) → List (String × ρ) × List String
  | [] => ([], [])
  | (n, .ok rs) :: rest =>
    let t := scrapeFullSeq rest
    ((n, rs) :: t.1, t.2)
  | (_, .error e) :: _ => ([], ["Scraping error: " ++ e])

/-- A concrete loop body that raises on the element `2` (used to witness
the exception semantics). -/
def bodyBoom : Nat → Except String (Option Nat) :=
  fun n => if n == 2 then .error "boom" else .ok (some (n * 10))

/-! ## Concrete documents used by witnesses and counterexamples -/

/-- `<td>s</td>`. -/
def tdCell (s : String) : Node := .elem "td" [] [.text s]

/-- `<tr>...</tr>`. -/
def trRow (cs : List Node) : Node := .elem "tr" [] cs

/-- A parsed document with the given top-level nodes. -/
def mkDoc (ks : List Node) : Node := .elem "[document]" [] ks

/-- The empty document. -/
def emptyDoc : Node := mkDoc []

/-- A table whose first row's cells clean to empty strings, followed by a
data row (`<table><tr><td> </td><td></td></tr><tr><td>a</td><td>b</td></tr></table>`). -/
def emptyHeaderTableDoc : Node :=
  mkDoc [.elem "table" [] [trRow [tdCell " ", tdCell ""], trRow [tdCell "a", tdCell "b"]]]

/-- A table with an explicit `<thead>`. -/
def tblWithThead : Node :=
  .elem "table" [] [.elem "thead" [] [trRow [.elem "th" [] [.text "X"]]],
    .elem "tbody" [] [trRow [tdCell "1"]]]

/-- A table without `<thead>` whose first row serves as header. -/
def tblFirstRowHeader : Node :=
  .elem "table" [] [trRow [tdCell "A"], trRow [tdCell "2"]]

/-- A table with a cell-less `<thead>`, forcing `Column_N` synthesis. -/
def tblEmptyThead : Node :=
  .elem "table" [] [.elem "thead" [] [], .elem "tbody" [] [trRow [tdCell "3"]]]

/-- A table with only a (first-row) header and no data rows. -/
def tblHeaderOnly : Node := .elem "table" [] [trRow [tdCell "H"]]

/-- Three tables exercising the three header policies. -/
def threeTablesDoc : Node := mkDoc [tblWithThead, tblFirstRowHeader, tblEmptyThead]

/-- A header-only table followed by a normal one: the first produces no
record and its table number is skipped. -/
def gapTablesDoc : Node := mkDoc [tblHeaderOnly, tblFirstRowHeader]

/-- `<h2>A</h2><h1>B</h1>`: document order differs from level order. -/
def headingsOutOfOrderDoc : Node :=
  mkDoc [.elem "h2" [] [.text "A"], .elem "h1" [] [.text "B"]]

/-- An `<img>` with no `src`/`data-src`/`data-lazy-src`. -/
def srclessImgDoc : Node := mkDoc [.elem "img" [("alt", "decorative")] []]

/-- A form whose controls appear as textarea, then input, then button in
the markup: the extractor regroups them by kind. -/
def sampleFormDoc : Node :=
  mkDoc [.elem "form" [("id", "f1")] [
    .elem "textarea" [("name", "msg")] [.text "hello"],
    .elem "input" [("type", "hidden"), ("name", "csrf")] [],
    .elem "button" [("type", "submit"), ("name", "go")] [.text "Go"]]]

/-- `<form id="f"></form>`: a form with no controls. -/
def emptyFormDoc : Node := mkDoc [.elem "form" [("id", "f")] []]

/-! ### Lemmas about the whitespace primitives of `clean_text` -/

theorem pyWordsAux_ok (l : List Char) : ∀ acc, (∀ c ∈ acc, pyIsSpace c = false) →
    ∀ w ∈ pyWordsAux l acc, w ≠ [] ∧ ∀ c ∈ w, pyIsSpace c = false := by
  induction l with
  | nil =>
    intro acc hacc w hw
    simp only [pyWordsAux] at hw
    split at hw
    · simp at hw
    · rename_i hne
      simp only [List.mem_singleton] at hw
      subst hw
      refine ⟨by simpa [List.isEmpty_iff] using hne, ?_⟩
      intro c hc
      exact hacc c (List.mem_reverse.mp hc)
  | cons a as ih =>
    intro acc hacc w hw
    simp only [pyWordsAux] at hw
    split at hw
    · split at hw
      · exact ih [] (by simp) w hw
      · rename_i hne
        rcases List.mem_cons.mp hw with rfl | hw'
        · refine ⟨by simpa [List.isEmpty_iff] using hne, ?_⟩
          intro c hc
          exact hacc c (List.mem_reverse.mp hc)
        · exact ih [] (by simp) w hw'
    · rename_i hsp
      refine ih (a :: acc) ?_ w hw
      intro c hc
      rcases List.mem_cons.mp hc with rfl | hc'
      · simpa using hsp
      · exact hacc c hc'

theorem pyWords_ok (l : List Char) :
    ∀ w ∈ pyWords l, w ≠ [] ∧ ∀ c ∈ w, pyIsSpace c = false :=
  pyWordsAux_ok l [] (by simp)

theorem mem_of_mem_pyWordsAux (l : List Char) : ∀ acc w c, w ∈ pyWordsAux l acc →
    c ∈ w → c ∈ l ∨ c ∈ acc := by
  induction l with
  | nil =>
    intro acc w c hw hc
    simp only [pyWordsAux] at hw
    split at hw
    · simp at hw
    · simp only [List.mem_singleton] at hw
      subst hw
      exact Or.inr (List.mem_reverse.mp hc)
  | cons a as ih =>
    intro acc w c hw hc
    simp only [pyWordsAux] at hw
    split at hw
    · split at hw
      · rcases ih [] w c hw hc with h | h
        · exact Or.inl (List.mem_cons_of_mem _ h)
        · simp at h
      · rcases List.mem_cons.mp hw with rfl | hw'
        · exact Or.inr (List.mem_reverse.mp hc)
        · rcases ih [] w c hw' hc with h | h
          · exact Or.inl (List.mem_cons_of_mem _ h)
          · simp at h
    · rcases ih (a :: acc) w c hw hc with h | h
      · exact Or.inl (List.mem_cons_of_mem _ h)
      · rcases List.mem_cons.mp h with rfl | h'
        · exact Or.inl (List.mem_cons_self _ _)
        · exact Or.inr h'

theorem mem_of_mem_pyWords {l w : List Char} {c : Char}
    (hw : w ∈ pyWords l) (hc : c ∈ w) : c ∈ l := by
  rcases mem_of_mem_pyWordsAux l [] w c hw hc with h | h
  · exact h
  · simp at h

theorem mem_pyJoinSp : ∀ (ws : List (List Char)) (c : Char), c ∈ pyJoinSp ws →
    c = ' ' ∨ ∃ w ∈ ws, c ∈ w := by
  intro ws
  induction ws with
  | nil => intro c hc; simp [pyJoinSp] at hc
  | cons w ws ih =>
    intro c hc
    cases ws with
    | nil =>
      simp only [pyJoinSp] at hc
      exact Or.inr ⟨w, List.mem_cons_self _ _, hc⟩
    | cons w2 rest =>
      simp only [pyJoinSp] at hc
      rcases List.mem_append.mp hc with h | h
      · exact Or.inr ⟨w, List.mem_cons_self _ _, h⟩
      · rcases List.mem_cons.mp h with rfl | h'
        · exact Or.inl rfl
        · rcases ih c h' with h'' | ⟨w', hw', hcw'⟩
          · exact Or.inl h''
          · exact Or.inr ⟨w', List.mem_cons_of_mem _ hw', hcw'⟩

theorem pyJoinSp_ne_nil : ∀ (ws : List (List Char)), ws ≠ [] →
    (∀ w ∈ ws, w ≠ []) → pyJoinSp ws ≠ [] := by
  intro ws hne hw
  cases ws with
  | nil => exact absurd rfl hne
  | cons w ws =>
    cases ws with
    | nil => simpa [pyJoinSp] using hw w (List.mem_cons_self _ _)
    | cons w2 rest =>
      simp only [pyJoinSp]
      intro h
      rcases List.append_eq_nil.mp h with ⟨-, h2⟩
      simp at h2

theorem pyWordsAux_word_absorb {w : List Char} (hw : ∀ c ∈ w, pyIsSpace c = false) :
    ∀ rest acc, pyWordsAux (w ++ rest) acc = pyWordsAux rest (w.reverse ++ acc) := by
  induction w with
  | nil => intro rest acc; simp
  | cons c cw ih =>
    intro rest acc
    have hc : pyIsSpace c = false := hw c (List.mem_cons_self _ _)
    simp only [List.cons_append, pyWordsAux, hc, Bool.false_eq_true, if_false,
      List.append_eq]
    rw [ih (fun d hd => hw d (List.mem_cons_of_mem _ hd)) rest (c :: acc)]
    simp

theorem pyWords_pyJoinSp : ∀ (ws : List (List Char)),
    (∀ w ∈ ws, w ≠ [] ∧ ∀ c ∈ w, pyIsSpace c = false) →
    pyWords (pyJoinSp ws) = ws := by
  intro ws
  induction ws with
  | nil => intro _; rfl
  | cons w ws ih =>
    intro h
    obtain ⟨hwne, hwsp⟩ := h w (List.mem_cons_self _ _)
    cases ws with
    | nil =>
      show pyWordsAux (pyJoinSp [w]) [] = [w]
      have hj : pyJoinSp [w] = w ++ [] := by simp [pyJoinSp]
      rw [hj, pyWordsAux_word_absorb hwsp]
      simp [pyWordsAux, List.isEmpty_iff, hwne]
    | cons w2 rest =>
      show pyWordsAux (pyJoinSp (w :: w2 :: rest)) [] = w :: w2 :: rest
      simp only [pyJoinSp]
      rw [pyWordsAux_word_absorb hwsp]
      have hsp : pyIsSpace ' ' = true := by decide
      simp only [List.append_nil, pyWordsAux, hsp, if_true]
      rw [if_neg (by simp [List.isEmpty_iff, hwne]), List.reverse_reverse]
      exact congrArg (w :: ·) (ih (fun v hv => h v (List.mem_cons_of_mem _ hv)))

theorem pyJoinSp_head : ∀ (ws : List (List Char)), (∀ w ∈ ws, w ≠ []) →
    pyJoinSp ws = [] ∨ ∃ c t, pyJoinSp ws = c :: t ∧ c ∈ ws.flatten := by
  intro ws h
  cases ws with
  | nil => exact Or.inl rfl
  | cons w ws =>
    cases hw : w with
    | nil => exact absurd hw (h w (List.mem_cons_self _ _))
    | cons c t =>
      right
      cases ws with
      | nil =>
        exact ⟨c, t, by simp [pyJoinSp, hw], by simp [hw]⟩
      | cons w2 rest =>
        refine ⟨c, t ++ ' ' :: pyJoinSp (w2 :: rest), ?_, ?_⟩
        · simp [pyJoinSp, hw]
        · simp [hw]

theorem pyJoinSp_last : ∀ (ws : List (List Char)), (∀ w ∈ ws, w ≠ []) →
    pyJoinSp ws = [] ∨ ∃ c t, (pyJoinSp ws).reverse = c :: t ∧ c ∈ ws.flatten := by
  intro ws
  induction ws with
  | nil => intro _; exact Or.inl rfl
  | cons w ws ih =>
    intro h
    cases ws with
    | nil =>
      right
      have hwne := h w (List.mem_cons_self _ _)
      cases hrev : w.reverse with
      | nil => exact absurd (by simpa using hrev) hwne
      | cons c t =>
        refine ⟨c, t, by simpa [pyJoinSp] using hrev, ?_⟩
        have : c ∈ w.reverse := by rw [hrev]; exact List.mem_cons_self _ _
        simpa using List.mem_reverse.mp this
    | cons w2 rest =>
      right
      have hj := ih (fun v hv => h v (List.mem_cons_of_mem _ hv))
      rcases hj with hnil | ⟨c, t, hct, hc⟩
      · exact absurd hnil (pyJoinSp_ne_nil _ (by simp)
          (fun v hv => h v (List.mem_cons_of_mem _ hv)))
      · refine ⟨c, t ++ (' ' :: w.reverse).reverse.reverse, ?_, ?_⟩
        · show (w ++ ' ' :: pyJoinSp (w2 :: rest)).reverse = _
          rw [List.reverse_append, List.reverse_cons, List.append_assoc, hct]
          simp
        · simp only [List.flatten_cons, List.mem_append]
          right
          simpa using hc

theorem pyStripL_pyJoinSp (ws : List (List Char))
    (h : ∀ w ∈ ws, w ≠ [] ∧ ∀ c ∈ w, pyIsSpace c = false) :
    pyStripL (pyJoinSp ws) = pyJoinSp ws := by
  have hni : ∀ c ∈ ws.flatten, pyIsSpace c = false := by
    intro c hc
    rcases List.mem_flatten.mp hc with ⟨w, hw, hcw⟩
    exact (h w hw).2 c hcw
  have hne := fun w hw => (h w hw).1
  rcases pyJoinSp_head ws hne with hnil | ⟨c, t, hct, hc⟩
  · rw [hnil]; rfl
  · rcases pyJoinSp_last ws hne with hnil | ⟨d, u, hdu, hd⟩
    · rw [hnil]; rfl
    · unfold pyStripL
      rw [hct, List.dropWhile_cons, if_neg (by simp [hni c hc]), ← hct, hdu,
        List.dropWhile_cons, if_neg (by simp [hni d hd]), ← hdu,
        List.reverse_reverse]

theorem mem_pyStripL {l : List Char} {c : Char} (hc : c ∈ pyStripL l) : c ∈ l := by
  unfold pyStripL at hc
  have h1 := List.mem_reverse.mp hc
  have h2 := (List.dropWhile_sublist (l := (l.dropWhile pyIsSpace).reverse)
    (p := pyIsSpace)).mem h1
  have h3 := List.mem_reverse.mp h2
  exact (List.dropWhile_sublist (l := l) (p := pyIsSpace)).mem h3

theorem nfkdChar_of_not_space {c : Char}
    (h : pyIsSpace c = false ∨ c = ' ') : nfkdChar c = [c] := by
  unfold nfkdChar
  rcases h with h | rfl
  · rw [if_neg]
    intro hsp
    have : pyIsSpace c = true := by simp [pyIsSpace, hsp]
    rw [h] at this
    exact Bool.false_ne_true this
  · rfl

theorem nfkdL_eq_self {l : List Char}
    (h : ∀ c ∈ l, pyIsSpace c = false ∨ c = ' ') : nfkdL l = l := by
  induction l with
  | nil => rfl
  | cons c cs ih =>
    show nfkdChar c ++ nfkdL cs = c :: cs
    rw [nfkdChar_of_not_space (h c (List.mem_cons_self _ _)),
      ih (fun d hd => h d (List.mem_cons_of_mem _ hd))]
    rfl

theorem removeCtrl_eq_self {l : List Char}
    (h : ∀ c ∈ l, keepChar c = true) : removeCtrl l = l :=
  List.filter_eq_self.mpr h

/-- Every character of a `clean_text` result survives the control filter
and is either non-whitespace or the plain space. -/
theorem clean_textL_chars {l : List Char} {c : Char} (hc : c ∈ clean_textL l) :
    keepChar c = true ∧ (pyIsSpace c = false ∨ c = ' ') := by
  unfold clean_textL at hc
  split at hc
  · simp at hc
  · have h1 := mem_pyStripL hc
    have h2 := List.mem_filter.mp h1
    refine ⟨h2.2, ?_⟩
    rcases mem_pyJoinSp _ _ h2.1 with h | ⟨w, hw, hcw⟩
    · exact Or.inr h
    · exact Or.inl ((pyWords_ok _ w hw).2 c hcw)

/-- On strings whose characters already survive the pipeline's filters,
`clean_text` reduces to pure whitespace collapsing. -/
theorem clean_textL_of_clean_chars {y : List Char}
    (hy : ∀ c ∈ y, keepChar c = true ∧ (pyIsSpace c = false ∨ c = ' ')) :
    clean_textL y = pyJoinSp (pyWords y) := by
  unfold clean_textL
  split
  · rename_i h; subst h; rfl
  · rw [nfkdL_eq_self (fun c hc => (hy c hc).2)]
    rw [removeCtrl_eq_self ?keep]
    case keep =>
      intro c hc
      rcases mem_pyJoinSp _ _ hc with rfl | ⟨w, hw, hcw⟩
      · decide
      · exact (hy c (mem_of_mem_pyWords hw hcw)).1
    exact pyStripL_pyJoinSp _ (pyWords_ok y)

theorem clean_textL_triple (l : List Char) :
    clean_textL (clean_textL (clean_textL l)) = clean_textL (clean_textL l) := by
  have hy1 : ∀ c ∈ clean_textL l,
      keepChar c = true ∧ (pyIsSpace c = false ∨ c = ' ') :=
    fun c hc => clean_textL_chars hc
  have hy2 : ∀ c ∈ clean_textL (clean_textL l),
      keepChar c = true ∧ (pyIsSpace c = false ∨ c = ' ') :=
    fun c hc => clean_textL_chars hc
  rw [clean_textL_of_clean_chars hy2,
    clean_textL_of_clean_chars hy1,
    pyWords_pyJoinSp _ (pyWords_ok (clean_textL l))]

/-! ## Generic list helpers -/

/-- The length of an enumerated `filterMap` whose step keeps an element
independently of its index. -/
theorem filterMap_enumFrom_length {α β : Type} (f : Nat × α → Option β)
    (hf : ∀ n m a, (f (n, a)).isSome = (f (m, a)).isSome) :
    ∀ (l : List α) (n : Nat),
      ((List.enumFrom n l).filterMap f).length =
        l.countP (fun a => (f (0, a)).isSome) := by
  intro l
  induction l with
  | nil => intro n; rfl
  | cons a l ih =>
    intro n
    show ((( n, a) :: List.enumFrom (n + 1) l).filterMap f).length = _
    rw [List.filterMap_cons, List.countP_cons]
    cases hfa : f (n, a) with
    | none =>
      have h0 : (f (0, a)).isSome = false := by rw [hf 0 n a, hfa]; rfl
      simp [ih (n + 1), h0]
    | some b =>
      have h0 : (f (0, a)).isSome = true := by rw [hf 0 n a, hfa]; rfl
      simp [ih (n + 1), h0]

/-- Blocks of a `flatMap` carrying a constant rank, flattened in a
rank-monotone order, give a rank-sorted list. -/
theorem pairwise_flatMap_rank {α β : Type} (rank : α → Nat) (key : β → Nat)
    (g : α → List β) :
    ∀ (tags : List α), tags.Pairwise (fun a b => rank a ≤ rank b) →
      (∀ a ∈ tags, ∀ x ∈ g a, key x = rank a) →
      (tags.flatMap g).Pairwise (fun x y => key x ≤ key y) := by
  intro tags
  induction tags with
  | nil => intro _ _; simp
  | cons a tags ih =>
    intro hmono hval
    rw [List.flatMap_cons, List.pairwise_append]
    refine ⟨?_, ?_, ?_⟩
    · refine List.pairwise_of_forall_mem_list ?_
      intro x hx y hy
      rw [hval a (List.mem_cons_self _ _) x hx, hval a (List.mem_cons_self _ _) y hy]
    · exact ih (List.Pairwise.sublist (List.sublist_cons_self _ _) hmono)
        (fun b hb x hx => hval b (List.mem_cons_of_mem _ hb) x hx)
    · intro x hx y hy
      rcases List.mem_flatMap.mp hy with ⟨b, hb, hyb⟩
      rw [hval a (List.mem_cons_self _ _) x hx,
        hval b (List.mem_cons_of_mem _ hb) y hyb]
      exact (List.pairwise_cons.mp hmono).1 b hb

/-- Positions assigned as `offset + enumeration index + 1`. -/
theorem map_pos_enumFrom {α β : Type} (f : Nat × α → β) (pos : β → Nat)
    (off : Nat) (hpos : ∀ p, pos (f p) = off + p.1 + 1) :
    ∀ (l : List α) (n : Nat),
      ((List.enumFrom n l).map f).map pos = List.range' (off + n + 1) l.length := by
  intro l
  induction l with
  | nil => intro n; rfl
  | cons a l ih =>
    intro n
    show pos (f (n, a)) :: ((List.enumFrom (n + 1) l).map f).map pos = _
    rw [hpos (n, a), ih (n + 1)]
    show (off + n + 1) :: List.range' (off + n + 1 + 1) l.length =
      List.range' (off + n + 1) (l.length + 1)
    rw [List.range'_succ]

/-! ## C1: purity and determinism of `scrape_full` -/

/-- C1 (counterexample): `scrape_full` embeds the `datetime.now()`
timestamp in its result, so two runs of the full extraction on the same
document and the same selected categories — performed at different clock
readings — do not yield identical results. -/
theorem scrape_full_runs_differ :
    scrape_full "https://example.com" "https://example.com"
      "2024-01-01 00:00:00" emptyDoc [] ≠
    scrape_full "https://example.com" "https://example.com"
      "2024-01-01 00:00:01" emptyDoc [] := by decide

/-- C1 (amended): apart from the `metadata.timestamp` field, the result
of `scrape_full` is a pure function of the url, the base url, the
document and the selected categories: every extracted record list — and
hence every record position and their ordering — together with the page
title and description, is byte-identical across two runs; the document,
an immutable value, is never mutated. -/
theorem scrape_full_pure_modulo_timestamp :
    ∀ (url base_url t1 t2 : String) (soup : Node) (feats : List String),
      (scrape_full url base_url t1 soup feats).data =
        (scrape_full url base_url t2 soup feats).data ∧
      (scrape_full url base_url t1 soup feats).metadata.url =
        (scrape_full url base_url t2 soup feats).metadata.url ∧
      (scrape_full url base_url t1 soup feats).metadata.title =
        (scrape_full url base_url t2 soup feats).metadata.title ∧
      (scrape_full url base_url t1 soup feats).metadata.description =
        (scrape_full url base_url t2 soup feats).metadata.description := by
  intro url base_url t1 t2 soup feats
  exact ⟨rfl, rfl, rfl, rfl⟩

/-! ## C2: the rectangular invariant of the normalizer -/

/-- C2: every normalized row has exactly the header length: a row shorter
than the header is padded with empty strings, a longer one is truncated
to the first header-length entries. -/
theorem normalize_row_rectangular :
    ∀ (headers : List String) (rows : List (List String)),
      (∀ r ∈ normalized_rows headers rows, r.length = headers.length) ∧
      (∀ row ∈ rows, row.length ≤ headers.length →
        normalize_row headers.length row =
          row ++ List.replicate (headers.length - row.length) "") ∧
      (∀ row ∈ rows, headers.length < row.length →
        normalize_row headers.length row = row.take headers.length) := by
  intro headers rows
  refine ⟨?_, ?_, ?_⟩
  · intro r hr
    rcases List.mem_map.mp hr with ⟨row, -, rfl⟩
    unfold normalize_row
    split
    · rename_i hlt
      rw [List.length_append, List.length_replicate]
      omega
    · split
      · rename_i hgt
        rw [List.length_take]
        omega
      · omega
  · intro row _ hle
    unfold normalize_row
    split
    · rfl
    · split
      · omega
      · rename_i h1 h2
        have : headers.length - row.length = 0 := by omega
        rw [this, List.replicate_zero, List.append_nil]
  · intro row _ hgt
    unfold normalize_row
    rw [if_neg (by omega), if_pos hgt]

/-- C2 (witness): header length 3 pads `["v1","v2"]` to `["v1","v2",""]`
and truncates a 4-cell row to its first 3 entries. -/
theorem normalize_row_rectangular_witness :
    (∀ r ∈ normalized_rows ["c1", "c2", "c3"] [["v1", "v2"], ["a", "b", "c", "d"]],
      r.length = 3) ∧
    normalize_row 3 ["v1", "v2"] = ["v1", "v2", ""] ∧
    normalize_row 3 ["a", "b", "c", "d"] = ["a", "b", "c"] := by
  have h := normalize_row_rectangular ["c1", "c2", "c3"]
    [["v1", "v2"], ["a", "b", "c", "d"]]
  exact ⟨fun r hr => h.1 r hr,
    (h.2.1 ["v1", "v2"] (by decide) (by decide)).trans (by decide),
    (h.2.2 ["a", "b", "c", "d"] (by decide) (by decide)).trans (by decide)⟩

/-! ## C6: which extractors skip records -/

/-- Elements with an empty effective src are dropped by the images loop. -/
theorem imgStep_isSome (base_url : String) :
    ∀ n m a, (imgStep base_url (n, a)).isSome = (imgStep base_url (m, a)).isSome := by
  intro n m a
  by_cases h : imgEffSrc a ≠ "" <;> simp [imgStep, h]

/-- C6 (counterexample): the images extractor does *not* emit a record
for every `<img>`: an image with no `src`, `data-src` or `data-lazy-src`
is dropped entirely. -/
theorem srcless_image_dropped :
    (findAll ["img"] srclessImgDoc).length = 1 ∧
    extract_all_images srclessImgDoc "https://x.com" = [] := by decide

/-- C6 (amended): the images extractor also skips records — exactly the
`<img>` elements whose effective src is empty; the links and meta
extractors emit one record per matching element, keeping empty-valued
fields. -/
theorem extractor_skip_policy :
    ∀ (soup : Node) (base_url : String),
      (extract_all_images soup base_url).length =
        (findAll ["img"] soup).countP (fun img => decide (imgEffSrc img ≠ "")) ∧
      (extract_all_links soup base_url).length = (anchorsWithHref soup).length ∧
      (extract_all_meta soup).length = (findAll ["meta"] soup).length := by
  intro soup base_url
  refine ⟨?_, ?_, ?_⟩
  · show (((findAll ["img"] soup).enumFrom 0).filterMap (imgStep base_url)).length = _
    rw [filterMap_enumFrom_length (imgStep base_url) (imgStep_isSome base_url)
      (findAll ["img"] soup) 0]
    refine List.countP_congr ?_
    intro img _
    by_cases h : imgEffSrc img ≠ "" <;> simp [imgStep, h]
  · show (((anchorsWithHref soup).enumFrom 0).map _).length = _
    rw [List.length_map, List.enumFrom_length]
  · show (((findAll ["meta"] soup).enumFrom 0).map _).length = _
    rw [List.length_map, List.enumFrom_length]

/-! ## C7: `clean_text` idempotence -/

/-- C7 (counterexample): `clean_text` is not idempotent: removing a
control character after whitespace collapsing can leave a double space
that only a second application collapses
(`clean_text "a \x01 b" = "a  b"` but `clean_text "a  b" = "a b"`). -/
theorem clean_text_not_idempotent :
    clean_text (clean_text "a \x01 b") ≠ clean_text "a \x01 b" := by decide

/-- C7 (amended): `clean_text` stabilizes after two applications: for
every input string, `clean_text (clean_text (clean_text x)) =
clean_text (clean_text x)`; equivalently, `clean_text` is idempotent on
its own image's image (in particular on every string free of
control-category characters). -/
theorem clean_text_stabilizes (s : String) :
    clean_text (clean_text (clean_text s)) = clean_text (clean_text s) :=
  congrArg (fun l => (⟨l⟩ : String)) (clean_textL_triple s.data)

/-! ## C8: `standardize_phone` and the leading `+` -/

/-- C8: the code's `re.sub(r'[^\d+]', '', phone)` keeps *every* `+` sign,
not only a leading one, contradicting its own comment ("Remove non-digit
characters except + at start") and the spec: on `"555+123-4567"` the code
returns `"555+1234567"` while the documented behaviour yields
`"5551234567"`. -/
theorem standardize_phone_keeps_inner_plus :
    standardize_phone "555+123-4567" = "555+1234567" ∧
    standardize_phone_speced "555+123-4567" = "5551234567" ∧
    standardize_phone "(555) 123-4567" = "5551234567" ∧
    standardize_phone "12" = "12" := by decide

/-! ## C9: exception semantics of the extraction pipeline -/

/-- C9 (counterexample): no extractor has a per-element handler: a loop
body that raises on the element `2` aborts the whole loop with the error
instead of skipping that element and continuing (which would have
produced `[10, 30]`). -/
theorem element_failure_not_skipped :
    pyLoopCollect bodyBoom [1, 2, 3] = Except.error "boom" ∧
    Except.error "boom" ≠ (Except.ok [10, 30] : Except String (List Nat)) :=
  ⟨rfl, fun h => Except.noConfusion h⟩

/-- C9 (amended): an element whose extraction raises is *not* skipped —
the exception aborts its category's loop; the only handler is the one
around the whole of `scrape_full`, which records
`"Scraping error: ..."` and returns the categories completed before the
failure.  The pure extractors are the no-exception instance of the same
loop. -/
theorem extraction_exception_semantics :
    (∀ (α β : Type) (body : α → Except String (Option β)) (f : α → Option β)
        (xs : List α) (x : α) (ys : List α) (e : String),
        (∀ a ∈ xs, body a = Except.ok (f a)) → body x = Except.error e →
        pyLoopCollect body (xs ++ x :: ys) = Except.error e) ∧
    (∀ (ρ : Type) (pre : List (String × ρ)) (n : String) (e : String)
        (post : List (String × Except String ρ)),
        scrapeFullSeq (pre.map (fun p => (p.1, Except.ok p.2)) ++
            (n, Except.error e) :: post) =
          (pre, ["Scraping error: " ++ e])) ∧
    (∀ (soup : Node) (base_url : String),
        pyLoopCollect
            (fun p => (Except.ok (imgStep base_url p) : Except String (Option ImageRec)))
            ((findAll ["img"] soup).enum) =
          Except.ok (extract_all_images soup base_url)) := by
  refine ⟨?_, ?_, ?_⟩
  · intro α β body f xs x ys e hok hx
    induction xs with
    | nil => simp [pyLoopCollect, hx]
    | cons a xs ih =>
      have ha := hok a (List.mem_cons_self _ _)
      have ih' := ih (fun b hb => hok b (List.mem_cons_of_mem _ hb))
      show pyLoopCollect body (a :: (xs ++ x :: ys)) = _
      rw [pyLoopCollect, ha]
      cases f a with
      | none => exact ih'
      | some b => rw [ih']
  · intro ρ pre n e post
    induction pre with
    | nil => rfl
    | cons p pre ih =>
      show scrapeFullSeq ((p.1, Except.ok p.2) ::
        (pre.map (fun p => (p.1, Except.ok p.2)) ++ (n, Except.error e) :: post)) = _
      rw [scrapeFullSeq, ih]
  · intro soup base_url
    show pyLoopCollect _ (List.enumFrom 0 _) =
      Except.ok ((List.enumFrom 0 _).filterMap _)
    generalize List.enumFrom 0 (findAll ["img"] soup) = l
    induction l with
    | nil => rfl
    | cons p l ih =>
      rw [List.filterMap_cons, pyLoopCollect]
      cases imgStep base_url p with
      | none => exact ih
      | some r => rw [ih]

/-- C9 (witness): the loop semantics at a concrete failing body, and the
`scrape_full` handler at a concrete failing category sequence. -/
theorem extraction_exception_semantics_witness :
    pyLoopCollect bodyBoom [1, 2, 3] = Except.error "boom" ∧
    scrapeFullSeq [("titles", Except.ok [1]), ("images", Except.error "io fail")] =
      ([("titles", [1])], ["Scraping error: io fail"]) :=
  ⟨extraction_exception_semantics.1 Nat Nat bodyBoom (fun n => some (n * 10))
      [1] 2 [3] "boom"
      (fun a ha => by rw [List.mem_singleton.mp ha]; rfl) rfl,
    extraction_exception_semantics.2.1 (List Nat) [("titles", [1])] "images" "io fail" []⟩

/-! ## Table extraction lemmas (shared by the table claims) -/

/-- Unfolding of a successful `perTable`. -/
theorem perTable_some {i : Nat} {tbl : Node} {r : TableRec}
    (h : perTable i tbl = some r) :
    r.table_number = i + 1 ∧ r.headers = tableHeaders tbl ∧
    r.rows = keptRows ((tableRowsToProcess tbl).drop (tableStartIdx tbl)) ∧
    r.rows ≠ [] ∧ r.headers ≠ [] := by
  have h' : (if keptRows ((tableRowsToProcess tbl).drop (tableStartIdx tbl)) ≠ [] ∧
      tableHeaders tbl ≠ [] then
        some (⟨i + 1, tableHeaders tbl,
          keptRows ((tableRowsToProcess tbl).drop (tableStartIdx tbl)),
          (keptRows ((tableRowsToProcess tbl).drop (tableStartIdx tbl))).length,
          (tableHeaders tbl).length⟩ : TableRec)
      else none) = some r := h
  split at h'
  · rename_i hc
    cases h'
    exact ⟨rfl, rfl, rfl, hc.1, hc.2⟩
  · exact absurd h' (by simp)

/-- Membership in the extracted tables, characterized by document index. -/
theorem mem_extract_all_tables {soup : Node} {r : TableRec} :
    r ∈ extract_all_tables soup ↔
      ∃ i tbl, (findAll ["table"] soup)[i]? = some tbl ∧
        perTable i tbl = some r := by
  unfold extract_all_tables
  rw [List.mem_filterMap]
  constructor
  · rintro ⟨p, hp, hpt⟩
    exact ⟨p.1, p.2, List.mem_enum_iff_getElem?.mp hp, hpt⟩
  · rintro ⟨i, tbl, hget, hpt⟩
    exact ⟨(i, tbl), List.mem_enum_iff_getElem?.mpr hget, hpt⟩

/-! ## C10: a table record needs a header and a kept data row -/

/-- C10: the extractor emits a record for the `i`-th `<table>` exactly
when both the computed header list and the kept data rows are non-empty;
every emitted record has a non-empty header and row list, and record
numbers of dropped tables are simply absent (numbering follows the
document index, never renumbered). -/
theorem table_record_requires_header_and_rows :
    ∀ (soup : Node) (i : Nat) (tbl : Node),
      (findAll ["table"] soup)[i]? = some tbl →
      ((∃ r ∈ extract_all_tables soup, r.table_number = i + 1) ↔
        (tableHeaders tbl ≠ [] ∧
          keptRows ((tableRowsToProcess tbl).drop (tableStartIdx tbl)) ≠ [])) ∧
      (∀ r ∈ extract_all_tables soup, r.headers ≠ [] ∧ r.rows ≠ []) := by
  intro soup i tbl hget
  constructor
  · constructor
    · rintro ⟨r, hr, hnum⟩
      rcases mem_extract_all_tables.mp hr with ⟨j, t, hj, hpt⟩
      obtain ⟨h1, h2, h3, h4, h5⟩ := perTable_some hpt
      have hij : j = i := by omega
      subst hij
      have ht : t = tbl := by rw [hj] at hget; exact Option.some.inj hget
      subst ht
      exact ⟨h2 ▸ h5, h3 ▸ h4⟩
    · rintro ⟨hh, hk⟩
      refine ⟨⟨i + 1, tableHeaders tbl,
        keptRows ((tableRowsToProcess tbl).drop (tableStartIdx tbl)),
        (keptRows ((tableRowsToProcess tbl).drop (tableStartIdx tbl))).length,
        (tableHeaders tbl).length⟩, ?_, rfl⟩
      refine mem_extract_all_tables.mpr ⟨i, tbl, hget, ?_⟩
      unfold perTable
      rw [if_pos ⟨hk, hh⟩]
  · intro r hr
    rcases mem_extract_all_tables.mp hr with ⟨j, t, hj, hpt⟩
    obtain ⟨-, -, -, h4, h5⟩ := perTable_some hpt
    exact ⟨h5, h4⟩

/-- C10 (witness): in a document holding a header-only table followed by
a normal one, no record carries table number 1, the second table's record
exists, and the emitted numbering is `[2]`. -/
theorem table_record_requires_header_and_rows_witness :
    (¬ ∃ r ∈ extract_all_tables gapTablesDoc, r.table_number = 0 + 1) ∧
    (∃ r ∈ extract_all_tables gapTablesDoc, r.table_number = 1 + 1) ∧
    (extract_all_tables gapTablesDoc).map (fun r => r.table_number) = [2] :=
  ⟨fun h => by
      have := (table_record_requires_header_and_rows gapTablesDoc 0
        tblHeaderOnly rfl).1.mp h
      revert this; decide,
    (table_record_requires_header_and_rows gapTablesDoc 1
      tblFirstRowHeader rfl).1.mpr (by decide),
    by decide⟩

/-! ## C3: the table header policy -/

/-- C3 (counterexample): a first row whose cells clean to empty strings
still becomes the header — as the list `["", ""]` — rather than
triggering `Column_N` synthesis: the synthesized names appear only when
no header cell is found at all. -/
theorem first_row_empty_strings_header :
    (extract_all_tables emptyHeaderTableDoc).map (fun r => r.headers) = [["", ""]] ∧
    (["", ""] : List String) ≠ ["Column_1", "Column_2"] := by decide

/-- C3 (amended): for the record extracted from the `i`-th `<table>`:
a `<thead>` holding at least one cell provides the header; with no
`<thead>`, the first `<tr>`'s cleaned cells (when that list is non-empty,
even if all its strings are empty) become the header and the first
processed row is excluded from the data rows; `Column_1..Column_N`
headers, sized to the first row's cell count, are synthesized only when
no header cell was found at all. -/
theorem table_header_policy :
    ∀ (soup : Node) (i : Nat) (tbl : Node) (r : TableRec),
      (findAll ["table"] soup)[i]? = some tbl →
      r ∈ extract_all_tables soup → r.table_number = i + 1 →
      ((∀ th, find1 ["thead"] tbl = some th → cleanedCells th ≠ [] →
          r.headers = cleanedCells th) ∧
       (find1 ["thead"] tbl = none → ∀ fr, find1 ["tr"] tbl = some fr →
          cleanedCells fr ≠ [] →
          r.headers = cleanedCells fr ∧
          r.rows = keptRows ((tableRowsToProcess tbl).drop 1)) ∧
       (tableHeadersPre tbl = [] → ∀ fr, find1 ["tr"] tbl = some fr →
          r.headers = (List.range (findAll ["td", "th"] fr).length).map
            (fun k => "Column_" ++ toString (k + 1)))) := by
  intro soup i tbl r hget hr hnum
  rcases mem_extract_all_tables.mp hr with ⟨j, t, hj, hpt⟩
  obtain ⟨h1, h2, h3, -, -⟩ := perTable_some hpt
  have hij : j = i := by omega
  subst hij
  have ht : t = tbl := by rw [hj] at hget; exact Option.some.inj hget
  rw [ht] at h2 h3
  refine ⟨?_, ?_, ?_⟩
  · intro th hth hcells
    have hpre : tableHeadersPre tbl = cleanedCells th := by
      unfold tableHeadersPre
      rw [hth]
    rw [h2]
    unfold tableHeaders
    rw [hpre, if_neg hcells]
  · intro hnone fr hfr hcells
    have hpre : tableHeadersPre tbl = cleanedCells fr := by
      unfold tableHeadersPre
      rw [hnone, hfr]
    have hhead : tableHeaders tbl = cleanedCells fr := by
      unfold tableHeaders
      rw [hpre, if_neg hcells]
    have hstart : tableStartIdx tbl = 1 := by
      unfold tableStartIdx
      rw [hnone, hhead]
      simp [List.isEmpty_iff, hcells]
    refine ⟨by rw [h2, hhead], by rw [h3, hstart]⟩
  · intro hpre fr hfr
    rw [h2]
    unfold tableHeaders
    rw [hpre, if_pos rfl, hfr]

/-- C3 (witness): the three header policies at concrete tables — an
explicit `<thead>`, a first-row header with the first row excluded from
the data, and `Column_N` synthesis for a table whose `<thead>` holds no
cell. -/
theorem table_header_policy_witness :
    (⟨1, ["X"], [["1"]], 1, 1⟩ : TableRec).headers =
      cleanedCells (Node.elem "thead" [] [trRow [Node.elem "th" [] [Node.text "X"]]]) ∧
    ((⟨2, ["A"], [["2"]], 1, 1⟩ : TableRec).headers = cleanedCells (trRow [tdCell "A"]) ∧
      (⟨2, ["A"], [["2"]], 1, 1⟩ : TableRec).rows =
        keptRows ((tableRowsToProcess tblFirstRowHeader).drop 1)) ∧
    (⟨3, ["Column_1"], [["3"]], 1, 1⟩ : TableRec).headers =
      (List.range (findAll ["td", "th"] (trRow [tdCell "3"])).length).map
        (fun k => "Column_" ++ toString (k + 1)) :=
  ⟨(table_header_policy threeTablesDoc 0 tblWithThead ⟨1, ["X"], [["1"]], 1, 1⟩
      rfl (by decide) rfl).1
      (Node.elem "thead" [] [trRow [Node.elem "th" [] [Node.text "X"]]]) rfl (by decide),
    (table_header_policy threeTablesDoc 1 tblFirstRowHeader ⟨2, ["A"], [["2"]], 1, 1⟩
      rfl (by decide) rfl).2.1 rfl (trRow [tdCell "A"]) rfl (by decide),
    (table_header_policy threeTablesDoc 2 tblEmptyThead ⟨3, ["Column_1"], [["3"]], 1, 1⟩
      rfl (by decide) rfl).2.2 rfl (trRow [tdCell "3"]) rfl⟩

/-! ## Intent-matching lemmas -/

theorem le_foldr_max : ∀ (l : List Nat), ∀ a ∈ l, a ≤ l.foldr Nat.max 0 := by
  intro l
  induction l with
  | nil => intro a ha; simp at ha
  | cons b l ih =>
    intro a ha
    rcases List.mem_cons.mp ha with rfl | ha'
    · exact Nat.le_max_left _ _
    · exact Nat.le_trans (ih a ha') (Nat.le_max_right _ _)

theorem foldr_max_mem : ∀ (l : List Nat),
    l.foldr Nat.max 0 = 0 ∨ l.foldr Nat.max 0 ∈ l := by
  intro l
  induction l with
  | nil => exact Or.inl rfl
  | cons b l ih =>
    rw [List.foldr_cons]
    rcases Nat.le_total b (l.foldr Nat.max 0) with h | h
    · rw [show Nat.max b (l.foldr Nat.max 0) = l.foldr Nat.max 0 from
        Nat.max_eq_right h]
      rcases ih with h0 | hm
      · exact Or.inl h0
      · exact Or.inr (List.mem_cons_of_mem _ hm)
    · rw [show Nat.max b (l.foldr Nat.max 0) = b from Nat.max_eq_left h]
      exact Or.inr (List.mem_cons_self _ _)

theorem keywordScore_le_maxScoreAll {tokens : List String} {c : String}
    {kws : List String} (h : (c, kws) ∈ element_keywords) :
    keywordScore tokens kws ≤ maxScoreAll tokens :=
  le_foldr_max _ _ (List.mem_map.mpr ⟨(c, kws), h, rfl⟩)

theorem maxScoreAll_eq_zero_iff {tokens : List String} :
    maxScoreAll tokens = 0 ↔
      ∀ p ∈ element_keywords, keywordScore tokens p.2 = 0 := by
  unfold maxScoreAll
  constructor
  · intro h p hp
    have := le_foldr_max _ _
      (List.mem_map.mpr ⟨p, hp, rfl⟩ :
        keywordScore tokens p.2 ∈ element_keywords.map (fun p => keywordScore tokens p.2))
    omega
  · intro h
    rcases foldr_max_mem (element_keywords.map (fun p => keywordScore tokens p.2))
      with h0 | hm
    · exact h0
    · rcases List.mem_map.mp hm with ⟨p, hp, hval⟩
      rw [← hval]
      exact h p hp

theorem scoresOf_eq_nil_iff {tokens : List String} :
    scoresOf tokens = [] ↔ maxScoreAll tokens = 0 := by
  rw [maxScoreAll_eq_zero_iff]
  unfold scoresOf
  rw [List.filterMap_eq_nil_iff]
  constructor
  · intro h p hp
    have := h p hp
    by_cases hs : keywordScore tokens p.2 > 0
    · simp [hs] at this
    · omega
  · intro h p hp
    have := h p hp
    simp [this]

theorem mem_scoresOf {tokens : List String} {c : String} {s : Nat} :
    (c, s) ∈ scoresOf tokens ↔
      ∃ kws, (c, kws) ∈ element_keywords ∧
        keywordScore tokens kws = s ∧ 0 < s := by
  unfold scoresOf
  rw [List.mem_filterMap]
  constructor
  · rintro ⟨p, hp, hstep⟩
    have hstep' : (if keywordScore tokens p.2 > 0 then
        some (p.1, keywordScore tokens p.2) else none) = some (c, s) := hstep
    split at hstep'
    · rename_i hpos
      obtain ⟨h1, h2⟩ := Prod.mk.injEq .. ▸ Option.some.inj hstep'
      exact ⟨p.2, by rw [← h1]; exact hp, h2, h2 ▸ hpos⟩
    · exact absurd hstep' (by simp)
  · rintro ⟨kws, hmem, hs, hpos⟩
    refine ⟨(c, kws), hmem, ?_⟩
    show (if keywordScore tokens kws > 0 then
      some (c, keywordScore tokens kws) else none) = some (c, s)
    rw [if_pos (hs ▸ hpos), hs]

/-- The max over the positive-score entries equals the max over all
categories. -/
theorem scoresOf_foldr_max {tokens : List String} :
    ((scoresOf tokens).map (fun p => p.2)).foldr Nat.max 0 = maxScoreAll tokens := by
  show ((element_keywords.filterMap _).map _).foldr Nat.max 0 =
    (element_keywords.map _).foldr Nat.max 0
  generalize element_keywords = l
  induction l with
  | nil => rfl
  | cons p l ih =>
    rw [List.filterMap_cons, List.map_cons, List.foldr_cons]
    by_cases hpos : keywordScore tokens p.2 > 0
    · rw [if_pos hpos, List.map_cons, List.foldr_cons, ih]
    · rw [if_neg hpos, ih]
      have h0 : keywordScore tokens p.2 = 0 := by omega
      rw [h0]
      exact (Nat.max_eq_right (Nat.zero_le _)).symm

/-! ## C4: the 70%-of-max selection -/

/-- C4: over a token list, `match_intent` selects exactly the categories
whose keyword-overlap score reaches 70% of the maximum observed score
(formalized by the exact integer comparison `10·score ≥ 7·max`, which
agrees with the code's float test on this range), and yields `["all"]`
when every category scores zero — in particular for an empty token
list. -/
theorem match_intent_threshold :
    ∀ (tokens : List String),
      (maxScoreAll tokens = 0 → match_intent_tokens tokens = ["all"]) ∧
      (maxScoreAll tokens ≠ 0 →
        (∀ c kws, (c, kws) ∈ element_keywords →
          10 * keywordScore tokens kws ≥ 7 * maxScoreAll tokens →
          c ∈ match_intent_tokens tokens) ∧
        (∀ c, c ∈ match_intent_tokens tokens →
          ∃ kws, (c, kws) ∈ element_keywords ∧
            10 * keywordScore tokens kws ≥ 7 * maxScoreAll tokens)) := by
  intro tokens
  constructor
  · intro h
    unfold match_intent_tokens
    rw [show scoresOf tokens = [] from scoresOf_eq_nil_iff.mpr h]
    rfl
  · intro hmax
    have hscores : scoresOf tokens ≠ [] := fun h => hmax (scoresOf_eq_nil_iff.mp h)
    have hmatched : ∀ x, x ∈ ((scoresOf tokens).filter
        (fun p => 10 * p.2 ≥ 7 * ((scoresOf tokens).map (fun p => p.2)).foldr Nat.max 0)).map
          (fun p => p.1) ↔
        ∃ s, (x, s) ∈ scoresOf tokens ∧ 10 * s ≥ 7 * maxScoreAll tokens := by
      intro x
      rw [List.mem_map]
      constructor
      · rintro ⟨p, hp, rfl⟩
        have := List.mem_filter.mp hp
        refine ⟨p.2, this.1, ?_⟩
        have hcond := of_decide_eq_true this.2
        rwa [scoresOf_foldr_max] at hcond
      · rintro ⟨s, hs, hcond⟩
        refine ⟨(x, s), List.mem_filter.mpr ⟨hs, decide_eq_true ?_⟩, rfl⟩
        rwa [scoresOf_foldr_max]
    have hne : ((scoresOf tokens).filter
        (fun p => 10 * p.2 ≥ 7 * ((scoresOf tokens).map (fun p => p.2)).foldr Nat.max 0)).map
          (fun p => p.1) ≠ [] := by
      rcases foldr_max_mem ((scoresOf tokens).map (fun p => p.2)) with h0 | hm
      · rw [scoresOf_foldr_max] at h0
        exact absurd h0 hmax
      · rcases List.mem_map.mp hm with ⟨p, hp, hval⟩
        refine List.ne_nil_of_mem ((hmatched p.1).mpr ⟨p.2, hp, ?_⟩)
        rw [← scoresOf_foldr_max, hval]
        omega
    have hresult : match_intent_tokens tokens = ((scoresOf tokens).filter
        (fun p => 10 * p.2 ≥ 7 * ((scoresOf tokens).map (fun p => p.2)).foldr Nat.max 0)).map
          (fun p => p.1) := by
      unfold match_intent_tokens
      rw [if_neg hscores, if_neg hne]
    constructor
    · intro c kws hmem hthr
      have hpos : 0 < keywordScore tokens kws := by
        have h7 : 0 < 7 * maxScoreAll tokens := by
          have := Nat.pos_of_ne_zero hmax
          omega
        omega
      rw [hresult]
      exact (hmatched c).mpr ⟨keywordScore tokens kws,
        mem_scoresOf.mpr ⟨kws, hmem, rfl, hpos⟩, hthr⟩
    · intro c hc
      rw [hresult] at hc
      rcases (hmatched c).mp hc with ⟨s, hs, hthr⟩
      rcases mem_scoresOf.mp hs with ⟨kws, hmem, hval, -⟩
      exact ⟨kws, hmem, hval ▸ hthr⟩

/-- C4 (witness): the token list `["price", "cost"]` selects the `price`
category, and an empty token list yields `["all"]`. -/
theorem match_intent_threshold_witness :
    "price" ∈ match_intent_tokens ["price", "cost"] ∧
    match_intent_tokens [] = ["all"] :=
  ⟨((match_intent_threshold ["price", "cost"]).2 (by decide)).1 "price"
      ["price", "cost", "amount", "value", "$", "fee", "rate", "charge", "payment"]
      (by decide) (by decide),
    (match_intent_threshold []).1 (by decide)⟩

/-! ## Title and form ordering lemmas (C5) -/

/-- Characterization of one title record: its position indexes the
elements of its own heading level. -/
theorem mem_titlesOfLevel {soup : Node} {tag : String} {r : TitleRec}
    (h : r ∈ titlesOfLevel soup tag) :
    ∃ el, r.level = upperStr tag ∧
      (findAll [tag] soup)[r.position - 1]? = some el ∧
      r.text = clean_text (getTextS el) ∧ r.text ≠ "" := by
  unfold titlesOfLevel at h
  rcases List.mem_filterMap.mp h with ⟨p, hp, hstep⟩
  have hstep' : (if clean_text (getTextS p.2) ≠ "" then
      some (⟨upperStr tag, clean_text (getTextS p.2), p.1 + 1,
        attrD p.2 "id" "", attrJoined p.2 "class"⟩ : TitleRec)
    else none) = some r := hstep
  split at hstep'
  · rename_i htxt
    cases hstep'
    exact ⟨p.2, rfl, by simpa using List.mem_enum_iff_getElem?.mp hp, rfl, htxt⟩
  · exact absurd hstep' (by simp)

/-- The positions of one control group are consecutive from its offset. -/
theorem group_positions {β : Type} (mk : Nat × Ctx → β) (pos : β → Nat)
    (off : Nat) (l : List Ctx) (hpos : ∀ p, pos (mk p) = off + p.1 + 1) :
    (l.enum.map mk).map pos = List.range' (off + 1) l.length :=
  map_pos_enumFrom mk pos off hpos l 0

/-- Appending two consecutive position ranges. -/
theorem glue_range' {xs ys : List Nat} {s a b : Nat}
    (hx : xs = List.range' s a) (hy : ys = List.range' (s + a) b) :
    xs ++ ys = List.range' s (a + b) := by
  rw [hx, hy, List.range'_append_1, Nat.add_comm b a]

/-- The submit-deduplication fold appends only submit records and keeps
the positions consecutive. -/
theorem submitFold_spec :
    ∀ (submits : List Ctx) (fs : List FormField),
      (∃ g5, (submits.foldl submitFoldStep (fs, fs.length)).1 = fs ++ g5 ∧
        ∀ x ∈ g5, x.element_type = "input" ∧ x.input_type = "submit") ∧
      (fs.map (fun f => f.position) = List.range' 1 fs.length →
        (submits.foldl submitFoldStep (fs, fs.length)).1.map (fun f => f.position) =
          List.range' 1 (submits.foldl submitFoldStep (fs, fs.length)).1.length) := by
  intro submits
  induction submits with
  | nil =>
    intro fs
    exact ⟨⟨[], by simp, by simp⟩, fun h => h⟩
  | cons c submits ih =>
    intro fs
    have hfold : List.foldl submitFoldStep (fs, fs.length) (c :: submits) =
        List.foldl submitFoldStep (submitFoldStep (fs, fs.length) c) submits := rfl
    rw [hfold]
    by_cases hdup : fs.any (fun f =>
        f.id == attrD c.node "id" "" && f.name == attrD c.node "name" "")
    · have hstep : submitFoldStep (fs, fs.length) c = (fs, fs.length) := by
        unfold submitFoldStep
        rw [if_pos hdup]
      rw [hstep]
      exact ih fs
    · have hstep : submitFoldStep (fs, fs.length) c =
          (fs ++ [mkSubmitField (fs.length + 1) c],
            (fs ++ [mkSubmitField (fs.length + 1) c]).length) := by
        unfold submitFoldStep
        rw [if_neg hdup]
        simp
      rw [hstep]
      obtain ⟨⟨g5, hg5, hkind⟩, hposs⟩ := ih (fs ++ [mkSubmitField (fs.length + 1) c])
      refine ⟨⟨[mkSubmitField (fs.length + 1) c] ++ g5,
        by rw [← List.append_assoc]; exact hg5, ?_⟩, ?_⟩
      · intro x hx
        rcases List.mem_append.mp hx with hx1 | hx2
        · rw [List.mem_singleton.mp hx1]
          exact ⟨rfl, rfl⟩
        · exact hkind x hx2
      · intro hfs
        refine hposs ?_
        rw [List.map_append, hfs]
        refine (glue_range' rfl ?_).trans (by rw [List.length_append])
        show List.map _ [mkSubmitField (fs.length + 1) c] = _
        rw [List.map_singleton]
        show [fs.length + 1] = List.range' (1 + fs.length) 1
        rw [List.range'_one, Nat.add_comm]

/-- The four pre-submit control groups carry consecutive positions. -/
theorem base_positions (form : Node) (inputs textareas selects buttons : List Ctx) :
    ((inputs.enum.map (fun p => mkInputField form (p.1 + 1) p.2) ++
      textareas.enum.map (fun p => mkTextareaField form (inputs.length + p.1 + 1) p.2) ++
      selects.enum.map (fun p =>
        mkSelectField form (inputs.length + textareas.length + p.1 + 1) p.2) ++
      buttons.enum.map (fun p =>
        mkButtonField (inputs.length + textareas.length + selects.length + p.1 + 1) p.2)).map
        (fun f => f.position)) =
      List.range' 1 (inputs.length + textareas.length + selects.length + buttons.length) := by
  have h1 : (inputs.enum.map (fun p => mkInputField form (p.1 + 1) p.2)).map
      (fun f => f.position) = List.range' 1 inputs.length :=
    group_positions (fun p => mkInputField form (p.1 + 1) p.2)
      (fun f => f.position) 0 inputs
      (fun p => by show p.1 + 1 = 0 + p.1 + 1; omega)
  have h2 : (textareas.enum.map (fun p =>
      mkTextareaField form (inputs.length + p.1 + 1) p.2)).map
      (fun f => f.position) = List.range' (1 + inputs.length) textareas.length := by
    have h := group_positions
      (fun p => mkTextareaField form (inputs.length + p.1 + 1) p.2)
      (fun f => f.position) inputs.length textareas (fun p => rfl)
    rwa [show inputs.length + 1 = 1 + inputs.length by omega] at h
  have h3 : (selects.enum.map (fun p =>
      mkSelectField form (inputs.length + textareas.length + p.1 + 1) p.2)).map
      (fun f => f.position) =
      List.range' (1 + (inputs.length + textareas.length)) selects.length := by
    have h := group_positions
      (fun p => mkSelectField form (inputs.length + textareas.length + p.1 + 1) p.2)
      (fun f => f.position) (inputs.length + textareas.length) selects
      (fun p => rfl)
    rwa [show inputs.length + textareas.length + 1 =
      1 + (inputs.length + textareas.length) by omega] at h
  have h4 : (buttons.enum.map (fun p =>
      mkButtonField (inputs.length + textareas.length + selects.length + p.1 + 1) p.2)).map
      (fun f => f.position) =
      List.range' (1 + (inputs.length + textareas.length + selects.length))
        buttons.length := by
    have h := group_positions
      (fun p => mkButtonField
        (inputs.length + textareas.length + selects.length + p.1 + 1) p.2)
      (fun f => f.position) (inputs.length + textareas.length + selects.length) buttons
      (fun p => rfl)
    rwa [show inputs.length + textareas.length + selects.length + 1 =
      1 + (inputs.length + textareas.length + selects.length) by omega] at h
  rw [List.map_append, List.map_append, List.map_append]
  have g12 := glue_range' h1 h2
  have g123 := glue_range' g12 h3
  have g1234 := glue_range' g123 h4
  rw [g1234]

/-- Field-list structure of one form: consecutive 1-based positions and
the grouping by control kind. -/
theorem extract_form_fields_spec (form : Node) (ancForm : List Node) :
    (extract_form_fields form ancForm).map (fun f => f.position) =
      List.range' 1 (extract_form_fields form ancForm).length ∧
    ∃ g1 g2 g3 g4 g5,
      extract_form_fields form ancForm = g1 ++ g2 ++ g3 ++ g4 ++ g5 ∧
      (∀ x ∈ g1, x.element_type = "input") ∧
      (∀ x ∈ g2, x.element_type = "textarea") ∧
      (∀ x ∈ g3, x.element_type = "select") ∧
      (∀ x ∈ g4, x.element_type = "button") ∧
      (∀ x ∈ g5, x.element_type = "input" ∧ x.input_type = "submit") := by
  have hbase := base_positions form
    ((walkCtxL (form :: ancForm) [] form.children).filter (fun c => c.node.isTag "input"))
    ((walkCtxL (form :: ancForm) [] form.children).filter (fun c => c.node.isTag "textarea"))
    ((walkCtxL (form :: ancForm) [] form.children).filter (fun c => c.node.isTag "select"))
    ((walkCtxL (form :: ancForm) [] form.children).filter (fun c => c.node.isTag "button"))
  have hlen : (((walkCtxL (form :: ancForm) [] form.children).filter
        (fun c => c.node.isTag "input")).enum.map
        (fun p => mkInputField form (p.1 + 1) p.2) ++
      ((walkCtxL (form :: ancForm) [] form.children).filter
        (fun c => c.node.isTag "textarea")).enum.map
        (fun p => mkTextareaField form (((walkCtxL (form :: ancForm) [] form.children).filter
          (fun c => c.node.isTag "input")).length + p.1 + 1) p.2) ++
      ((walkCtxL (form :: ancForm) [] form.children).filter
        (fun c => c.node.isTag "select")).enum.map
        (fun p => mkSelectField form (((walkCtxL (form :: ancForm) [] form.children).filter
          (fun c => c.node.isTag "input")).length +
          ((walkCtxL (form :: ancForm) [] form.children).filter
          (fun c => c.node.isTag "textarea")).length + p.1 + 1) p.2) ++
      ((walkCtxL (form :: ancForm) [] form.children).filter
        (fun c => c.node.isTag "button")).enum.map
        (fun p => mkButtonField (((walkCtxL (form :: ancForm) [] form.children).filter
          (fun c => c.node.isTag "input")).length +
          ((walkCtxL (form :: ancForm) [] form.children).filter
          (fun c => c.node.isTag "textarea")).length +
          ((walkCtxL (form :: ancForm) [] form.children).filter
          (fun c => c.node.isTag "select")).length + p.1 + 1) p.2)).length =
      ((walkCtxL (form :: ancForm) [] form.children).filter
        (fun c => c.node.isTag "input")).length +
      ((walkCtxL (form :: ancForm) [] form.children).filter
        (fun c => c.node.isTag "textarea")).length +
      ((walkCtxL (form :: ancForm) [] form.children).filter
        (fun c => c.node.isTag "select")).length +
      ((walkCtxL (form :: ancForm) [] form.children).filter
        (fun c => c.node.isTag "button")).length := by
    simp [List.length_append, List.enumFrom_length]
    omega
  obtain ⟨⟨g5, hg5, hkind5⟩, hpos5⟩ := submitFold_spec
    ((walkCtxL (form :: ancForm) [] form.children).filter
      (fun c => c.node.isTag "input" && attrD c.node "type" "" == "submit"))
    (((walkCtxL (form :: ancForm) [] form.children).filter
        (fun c => c.node.isTag "input")).enum.map
        (fun p => mkInputField form (p.1 + 1) p.2) ++
      ((walkCtxL (form :: ancForm) [] form.children).filter
        (fun c => c.node.isTag "textarea")).enum.map
        (fun p => mkTextareaField form (((walkCtxL (form :: ancForm) [] form.children).filter
          (fun c => c.node.isTag "input")).length + p.1 + 1) p.2) ++
      ((walkCtxL (form :: ancForm) [] form.children).filter
        (fun c => c.node.isTag "select")).enum.map
        (fun p => mkSelectField form (((walkCtxL (form :: ancForm) [] form.children).filter
          (fun c => c.node.isTag "input")).length +
          ((walkCtxL (form :: ancForm) [] form.children).filter
          (fun c => c.node.isTag "textarea")).length + p.1 + 1) p.2) ++
      ((walkCtxL (form :: ancForm) [] form.children).filter
        (fun c => c.node.isTag "button")).enum.map
        (fun p => mkButtonField (((walkCtxL (form :: ancForm) [] form.children).filter
          (fun c => c.node.isTag "input")).length +
          ((walkCtxL (form :: ancForm) [] form.children).filter
          (fun c => c.node.isTag "textarea")).length +
          ((walkCtxL (form :: ancForm) [] form.children).filter
          (fun c => c.node.isTag "select")).length + p.1 + 1) p.2))
  constructor
  · refine hpos5 ?_
    rw [hbase, ← hlen]
  · refine ⟨_, _, _, _, g5, hg5, ?_, ?_, ?_, ?_, hkind5⟩
    · rintro x hx
      rcases List.mem_map.mp hx with ⟨p, -, rfl⟩
      rfl
    · rintro x hx
      rcases List.mem_map.mp hx with ⟨p, -, rfl⟩
      rfl
    · rintro x hx
      rcases List.mem_map.mp hx with ⟨p, -, rfl⟩
      rfl
    · rintro x hx
      rcases List.mem_map.mp hx with ⟨p, -, rfl⟩
      rfl

/-! ## C5: emission order and positions -/

/-- C5 (counterexample): in `<h2>A</h2><h1>B</h1>` the document-order
headings are `A` then `B`, yet the extractor emits the `H1` record first
and gives *both* records position 1 — the 2nd heading in document order
(`B`) does not receive position 2, refuting per-document-order
positions. -/
theorem heading_positions_not_document_order :
    ((findAll ["h1", "h2", "h3", "h4", "h5", "h6"] headingsOutOfOrderDoc).map
      (fun n => clean_text (getTextS n))) = ["A", "B"] ∧
    ((extract_all_titles headingsOutOfOrderDoc).map
      (fun r => (r.level, r.text, r.position))) =
      [("H1", "B", 1), ("H2", "A", 1)] := by decide

/-- C5 (amended): heading records are emitted grouped by level h1..h6 —
not in global document order — and a record's position is the 1-based
index of its element among the elements of its *own* level (headings
whose text cleans to empty are counted but not emitted); within a form,
field records are grouped by control kind (inputs, then textareas,
selects, buttons, then non-duplicate submit inputs), each kind in
document order within the form, with one position counter running across
the groups (so positions are consecutive from 1). -/
theorem extraction_order_grouped :
    ∀ (soup : Node) (base_url : String),
      (∀ r ∈ extract_all_titles soup, ∃ tag, tag ∈ hLevels ∧ ∃ el,
        r.level = upperStr tag ∧
        (findAll [tag] soup)[r.position - 1]? = some el ∧
        r.text = clean_text (getTextS el) ∧ r.text ≠ "") ∧
      (extract_all_titles soup).Pairwise (fun a b =>
        hLevels.indexOf (lowerStr a.level) ≤ hLevels.indexOf (lowerStr b.level)) ∧
      (∀ f ∈ extract_all_forms soup base_url,
        f.fields.map (fun fd => fd.position) = List.range' 1 f.fields.length ∧
        ∃ g1 g2 g3 g4 g5, f.fields = g1 ++ g2 ++ g3 ++ g4 ++ g5 ∧
          (∀ x ∈ g1, x.element_type = "input") ∧
          (∀ x ∈ g2, x.element_type = "textarea") ∧
          (∀ x ∈ g3, x.element_type = "select") ∧
          (∀ x ∈ g4, x.element_type = "button") ∧
          (∀ x ∈ g5, x.element_type = "input" ∧ x.input_type = "submit")) := by
  intro soup base_url
  refine ⟨?_, ?_, ?_⟩
  · intro r hr
    rcases List.mem_flatMap.mp hr with ⟨tag, htag, hmem⟩
    obtain ⟨el, h1, h2, h3, h4⟩ := mem_titlesOfLevel hmem
    exact ⟨tag, htag, el, h1, h2, h3, h4⟩
  · refine pairwise_flatMap_rank (fun tag => hLevels.indexOf tag)
      (fun r => hLevels.indexOf (lowerStr r.level)) (titlesOfLevel soup)
      hLevels (by decide) ?_
    intro tag htag r hrt
    obtain ⟨el, hlv, -, -, -⟩ := mem_titlesOfLevel hrt
    show hLevels.indexOf (lowerStr r.level) = hLevels.indexOf tag
    rw [hlv]
    fin_cases htag <;> decide
  · intro f hf
    rcases List.mem_map.mp hf with ⟨p, -, rfl⟩
    exact ⟨(extract_form_fields_spec p.2.node p.2.ancestors).1,
      (extract_form_fields_spec p.2.node p.2.ancestors).2⟩

/-- C5 (witness): the record of the single `<h1>` in the out-of-order
document points back to its own level's element list; the sample form
(textarea, hidden input, button in markup order) is emitted with
consecutive positions 1..3 after regrouping; the empty form satisfies the
position law vacuously. -/
theorem extraction_order_grouped_witness :
    (∃ tag, tag ∈ hLevels ∧ ∃ el,
      (⟨"H1", "B", 1, "", ""⟩ : TitleRec).level = upperStr tag ∧
      (findAll [tag] headingsOutOfOrderDoc)[
        (⟨"H1", "B", 1, "", ""⟩ : TitleRec).position - 1]? = some el ∧
      (⟨"H1", "B", 1, "", ""⟩ : TitleRec).text = clean_text (getTextS el) ∧
      (⟨"H1", "B", 1, "", ""⟩ : TitleRec).text ≠ "") ∧
    ((extract_all_forms sampleFormDoc "https://x.com").map
      (fun f => f.fields.map (fun fd => (fd.position, fd.element_type)))) =
      [[(1, "input"), (2, "textarea"), (3, "button")]] ∧
    (⟨1, "f", "", "", "", "GET", "", "", "", [], 0, 0, 0, 0⟩ : FormRec).fields.map
      (fun fd => fd.position) =
      List.range' 1 (⟨1, "f", "", "", "", "GET", "", "", "", [], 0, 0, 0,
        0⟩ : FormRec).fields.length :=
  ⟨(extraction_order_grouped headingsOutOfOrderDoc "https://x.com").1
      ⟨"H1", "B", 1, "", ""⟩ (by decide),
    by decide,
    ((extraction_order_grouped emptyFormDoc "https://x.com").2.2
      ⟨1, "f", "", "", "", "GET", "", "", "", [], 0, 0, 0, 0⟩ (by decide)).1⟩

end QuickSilver
